import Mathlib

/-!
# coding-agent-example: conversation store and turn orchestrator

A shallow embedding of the Go packages `session` (`session/session.go`,
`session/sqlite_store.go`) and `ai` (`ai/openai_client.go`, `ai/tools/common.go`,
`ai/tools/patch_file.go`), followed by theorems about them.

Conventions of the embedding.

* Go `error` values are the inductive type `GoError`; `fmt.Errorf("...: %w", err)` is
  `GoError.wrap`, and `err.Error()` (what `%v` prints) is `GoError.Error`.
* The Go heap holding `ConversationTurn` objects is explicit (`Heap`); a
  `*ConversationTurn` is an address (`TurnPtr`).
* Go slices held inside a store are modelled by value (`Slice`): the store never hands its
  own slice out, so only the pointers stored in it can alias caller data.
* Everything outside the repository (the OpenAI client, `encoding/json`, `gitdiff`, the
  file system behind the tools, the debug writer) is a parameter acting on an abstract
  world `ω`; the database behind the durable store is the table its three statements act
  on (`DB`).
-/

namespace CodingAgent

/-! ## Errors -/

/-- Go `error` values as they are built in this repository. -/
inductive GoError where
  /-- An error carrying only a message (`errors.New`, or `fmt.Errorf` without `%w`). -/
  | new (msg : String)
  /-- The value of `fmt.Errorf(msg + "%w", cause)`. -/
  | wrap (msg : String) (cause : GoError)
  deriving DecidableEq, Repr

/-- The method `Error()` of a Go error: the text that `%v` prints. -/
def GoError.Error : GoError → String
  | .new msg => msg
  | .wrap msg cause => msg ++ cause.Error

/-- Go `errors.Unwrap`: the error wrapped with `%w`, if any. -/
def GoError.Unwrap : GoError → Option GoError
  | .new _ => none
  | .wrap _ cause => some cause

/-! ## `session/session.go` -/

/-- Go `type SessionID string`. -/
abbrev SessionID := String

/-- A Go slice, by value. -/
abbrev Slice (α : Type) := List α

/-- Go `session.ToolCall`. -/
structure ToolCall where
  Name : String
  Arguments : String
  Result : String
  deriving DecidableEq, Repr

/-- Go `session.ConversationTurn`. `Metadata` is the `map[string]string`, kept as its
key/value pairs and read with `List.lookup`; a nil slice or map is the empty list. -/
structure ConversationTurn where
  Role : String
  Content : String
  ToolCalls : Slice ToolCall := []
  Metadata : List (String × String) := []
  deriving DecidableEq, Repr

/-- A `*ConversationTurn`: the address of a turn object on the heap. -/
abbrev TurnPtr := Nat

/-- The part of the Go heap that holds `ConversationTurn` objects; the object at address
`p` is `cells[p]`. -/
structure Heap where
  cells : List ConversationTurn
  deriving DecidableEq, Repr

/-- The expression `&ConversationTurn{...}`: a fresh object and its address. -/
def Heap.alloc (h : Heap) (t : ConversationTurn) : TurnPtr × Heap :=
  (h.cells.length, ⟨h.cells ++ [t]⟩)

/-- Reading `*p`; `none` for a nil or dangling pointer. -/
def Heap.deref (h : Heap) (p : TurnPtr) : Option ConversationTurn :=
  h.cells[p]?

/-- Assigning through a pointer, `*p = t` (a field assignment `p.Content = c` is
`h.assign p { t with Content := c }` where `t` is the object at `p`). -/
def Heap.assign (h : Heap) (p : TurnPtr) (t : ConversationTurn) : Heap :=
  ⟨h.cells.set p t⟩

/-- Go `session.InMemoryStore`: the field `data map[SessionID][]*ConversationTurn`
(the mutex is not modelled). -/
structure InMemoryStore where
  data : SessionID → Option (Slice TurnPtr)

/-- Go `NewInMemoryStore`. -/
def NewInMemoryStore : InMemoryStore :=
  ⟨fun _ => none⟩

/-- Go builtin `copy(result, turns)` into `result := make([]*ConversationTurn, len(turns))`:
a new slice holding the same pointers. -/
def copySlice (turns : Slice TurnPtr) : Slice TurnPtr :=
  turns.map id

/-- Go `(*InMemoryStore).List`. -/
def InMemoryStore.List (s : InMemoryStore) (sessionID : SessionID) :
    Except GoError (Slice TurnPtr) :=
  match s.data sessionID with
  | none => .ok []
  | some turns => .ok (copySlice turns)

/-- Go `(*InMemoryStore).Append`: `s.data[sessionID] = append(s.data[sessionID], turn)`;
the returned `Option GoError` is the Go `error` (`none` is `nil`). -/
def InMemoryStore.Append (s : InMemoryStore) (sessionID : SessionID) (turn : TurnPtr) :
    Option GoError × InMemoryStore :=
  (none, ⟨fun k => if k = sessionID then some ((s.data sessionID).getD [] ++ [turn])
                   else s.data k⟩)

/-- Go `(*InMemoryStore).Delete`: `delete(s.data, sessionID)`. -/
def InMemoryStore.Delete (s : InMemoryStore) (sessionID : SessionID) :
    Option GoError × InMemoryStore :=
  (none, ⟨fun k => if k = sessionID then none else s.data k⟩)

/-- Go interface `session.Store`, as `GenerateResponse` uses it: the state `σ` is whatever
the implementation keeps, `List` hands back the turns of a session, `Append` takes the turn
a fresh pointer refers to and returns the Go `error` with the new state. (`Delete` is not
called by the orchestrator.) -/
structure Store (σ : Type) where
  List : SessionID → σ → Except GoError (Slice ConversationTurn)
  Append : SessionID → ConversationTurn → σ → Option GoError × σ

/-- The `InMemoryStore` behind the `Store` interface. A caller of `Append` allocates the
turn (`&session.ConversationTurn{...}`) and passes its address; a caller of `List` reads the
turns through the pointers it gets (an address outside the heap reads as the zero turn). -/
def InMemoryStore.asStore : Store (Heap × InMemoryStore) where
  List := fun sessionID hs =>
    match hs.2.List sessionID with
    | .error err => .error err
    | .ok ps => .ok (ps.map (fun p => (hs.1.deref p).getD ⟨"", "", [], []⟩))
  Append := fun sessionID turn hs =>
    let (p, h1) := hs.1.alloc turn
    let (err, s1) := hs.2.Append sessionID p
    (err, (h1, s1))

/-! ## The OpenAI Responses API, as far as `ai/openai_client.go` uses it -/

/-- An element of `resp.Output` (`responses.ResponseOutputItemUnion`): the discriminator
`Type` (written `Type_`, `Type` being reserved), the fields of a `function_call` item, and
the text parts of a message item. -/
structure ResponseOutputItemUnion where
  Type_ : String
  CallID : String := ""
  Name : String := ""
  Arguments : String := ""
  Content : List String := []
  deriving DecidableEq, Repr

/-- The library type `responses.ResponseFunctionToolCall`. -/
structure ResponseFunctionToolCall where
  CallID : String
  Name : String
  Arguments : String
  deriving DecidableEq, Repr

/-- The library method `AsFunctionCall` of an output item. -/
def ResponseOutputItemUnion.AsFunctionCall (i : ResponseOutputItemUnion) :
    ResponseFunctionToolCall :=
  ⟨i.CallID, i.Name, i.Arguments⟩

/-- The library type `responses.Response`: its `ID` and `Output`. -/
structure Response where
  ID : String
  Output : List ResponseOutputItemUnion
  deriving DecidableEq, Repr

/-- An input item of a request (`responses.ResponseInputItemUnionParam`), built by
`ResponseInputItemParamOfMessage` or `ResponseInputItemParamOfFunctionCallOutput`. -/
inductive ResponseInputItemUnionParam where
  | OfMessage (content : String) (role : String)
  | OfFunctionCallOutput (callID : String) (output : String)
  deriving DecidableEq, Repr

/-- The library type `responses.FunctionToolParam` inside a `ToolUnionParam`. -/
structure ToolUnionParam where
  Name : String
  Description : String
  Parameters : String
  Strict : Bool
  deriving DecidableEq, Repr

/-- The library type `responses.ResponseNewParams`, with the fields the code sets. -/
structure ResponseNewParams where
  Model : String
  Instructions : Option String
  Input : List ResponseInputItemUnionParam
  Tools : List ToolUnionParam
  PreviousResponseID : Option String := none
  deriving DecidableEq, Repr

/-- The library constant `shared.ChatModelGPT4_1`. -/
def ChatModelGPT4_1 : String := "gpt-4.1"

/-- The library constant `responses.EasyInputMessageRoleUser`. -/
def EasyInputMessageRoleUser : String := "user"

/-! ## `ai/tools` -/

def ToolNameReadFile : String := "read_file"

def ToolNameListFile : String := "list_file"

def ToolNameGrepFile : String := "grep_file"

def ToolNameWriteFile : String := "write_file"

def ToolNamePatchFile : String := "patch_file"

/-- The five embedded JSON schema files (`read_file_params.json`, ...), which are not part
of the sources at hand: the value each `get...ParamsOnce()` returns. -/
structure ToolSchemas where
  readFile : String
  listFile : String
  grepFile : String
  writeFile : String
  patchFile : String
  deriving DecidableEq, Repr

def GetReadFileToolParam (js : ToolSchemas) : ToolUnionParam :=
  ⟨ToolNameReadFile, "指定されたファイルの内容を全て読み込む", js.readFile, true⟩

def GetListFileToolParam (js : ToolSchemas) : ToolUnionParam :=
  ⟨ToolNameListFile, "指定されたディレクトリ内のファイルとディレクトリの一覧を取得する",
    js.listFile, true⟩

def GetGrepFileToolParam (js : ToolSchemas) : ToolUnionParam :=
  ⟨ToolNameGrepFile,
    "指定されたディレクトリ配下を再帰的に検索し、キーワードを含むファイルを見つける",
    js.grepFile, true⟩

def GetWriteFileToolParam (js : ToolSchemas) : ToolUnionParam :=
  ⟨ToolNameWriteFile, "指定されたパスに新しいファイルを作成し、内容を書き込む",
    js.writeFile, true⟩

def GetPatchFileToolParam (js : ToolSchemas) : ToolUnionParam :=
  ⟨ToolNamePatchFile, "Unified Diff形式のパッチを使用してファイルを編集する",
    js.patchFile, true⟩

/-- Go `tools.GetAllToolParams`. -/
def GetAllToolParams (js : ToolSchemas) : List ToolUnionParam :=
  [GetReadFileToolParam js, GetListFileToolParam js, GetGrepFileToolParam js,
    GetWriteFileToolParam js, GetPatchFileToolParam js]

/-- One tool as `CallFunction` sees it, over a world `ω` (the file system): the generated
parameter type and the decoding `json.Unmarshal` does into it, the tool function itself
(`ReadFile`, `ListFile`, ...), and `json.Marshal` of what it returns. -/
structure Tool (ω : Type) where
  Params : Type
  Out : Type
  Unmarshal : String → Except GoError Params
  Run : Params → ω → Except GoError Out × ω
  Marshal : Out → Except GoError String

/-- The five tool functions of package `tools`. -/
structure Tools (ω : Type) where
  ReadFile : Tool ω
  ListFile : Tool ω
  GrepFile : Tool ω
  WriteFile : Tool ω
  PatchFile : Tool ω

/-- The body shared by the five cases of the `switch` in `CallFunction`: decode the
arguments, run the tool, encode its result. -/
def callTool {ω : Type} (t : Tool ω) (name argsJSONStr : String) (w : ω) :
    Except GoError String × ω :=
  match t.Unmarshal argsJSONStr with
  | .error err => (.error (.wrap ("failed to unmarshal arguments for " ++ name ++ ": ") err), w)
  | .ok args =>
    match t.Run args w with
    | (.error err, w1) => (.error err, w1)
    | (.ok result, w1) =>
      match t.Marshal result with
      | .error err => (.error (.wrap ("failed to marshal output for " ++ name ++ ": ") err), w1)
      | .ok outJSON => (.ok outJSON, w1)

/-- Go `tools.CallFunction`. -/
def CallFunction {ω : Type} (ts : Tools ω) (name argsJSONStr : String) (w : ω) :
    Except GoError String × ω :=
  if name = ToolNameReadFile then callTool ts.ReadFile "read_file" argsJSONStr w
  else if name = ToolNameListFile then callTool ts.ListFile "list_file" argsJSONStr w
  else if name = ToolNameGrepFile then callTool ts.GrepFile "grep_file" argsJSONStr w
  else if name = ToolNameWriteFile then callTool ts.WriteFile "write_file" argsJSONStr w
  else if name = ToolNamePatchFile then callTool ts.PatchFile "patch_file" argsJSONStr w
  else (.error (.new ("unknown function call: " ++ name)), w)

/-! ## `ai/openai_client.go` -/

/-- What an `OpenAIClient` talks to, over a world `ω`: the two API methods it calls
(`c.client.Responses.Get`, of which only the error is looked at, and
`c.client.Responses.New`), the library method `Response.OutputText`, the writer
`c.config.debugOutput` (what `fmt.Fprintf` does to the world), the tools, and the two
values that are not part of the sources at hand (`systemPrompt`, the tool schemas). -/
structure Client (ω : Type) where
  ResponsesGet : String → ω → Option GoError × ω
  ResponsesNew : ResponseNewParams → ω → Except GoError Response × ω
  OutputText : Response → String
  debugOutput : String → ω → ω
  tools : Tools ω
  systemPrompt : String
  schemas : ToolSchemas

/-- Go `(*OpenAIClient).handleFunctionCall`. -/
def handleFunctionCall {ω : Type} (c : Client ω) (item : ResponseFunctionToolCall) (w : ω) :
    Except GoError String × ω :=
  CallFunction c.tools item.Name item.Arguments
    (c.debugOutput ("function called: " ++ item.Name ++ "\n") w)

/-- The variables the `for` loop of `resolveToolCalls` updates, with the world. -/
structure LoopState (ω : Type) where
  toolOutputs : Slice ResponseInputItemUnionParam
  toolCalls : Slice ToolCall
  world : ω

/-- One iteration of `for _, outputItem := range resp.Output` in `resolveToolCalls`
(lines 116-144). Both branches of `if err != nil` append the same function-call output;
they differ in `result`. -/
def resolveItem {ω : Type} (c : Client ω) (st : LoopState ω)
    (outputItem : ResponseOutputItemUnion) : LoopState ω :=
  if outputItem.Type_ ≠ "function_call" then st
  else
    let item := outputItem.AsFunctionCall
    match handleFunctionCall c item st.world with
    | (.error err, w1) =>
      let result := "Error: " ++ err.Error
      ⟨st.toolOutputs ++ [.OfFunctionCallOutput item.CallID result],
        st.toolCalls ++ [⟨item.Name, item.Arguments, result⟩], w1⟩
    | (.ok result, w1) =>
      ⟨st.toolOutputs ++ [.OfFunctionCallOutput item.CallID result],
        st.toolCalls ++ [⟨item.Name, item.Arguments, result⟩], w1⟩

/-- The whole `for` loop of `resolveToolCalls`, from a given loop state. -/
def resolveItems {ω : Type} (c : Client ω) (items : List ResponseOutputItemUnion)
    (st : LoopState ω) : LoopState ω :=
  items.foldl (resolveItem c) st

/-- The request `resolveToolCalls` sends after running tools (lines 148-156). -/
def followUpParams {ω : Type} (c : Client ω) (resp : Response)
    (toolOutputs : Slice ResponseInputItemUnionParam) : ResponseNewParams :=
  { Model := ChatModelGPT4_1
    Instructions := some c.systemPrompt
    Input := toolOutputs
    Tools := GetAllToolParams c.schemas
    PreviousResponseID := some resp.ID }

/-- What `resolveToolCalls` returns: `(string, []session.ToolCall, string, error)`. -/
structure Resolved where
  text : String
  toolCalls : Slice ToolCall
  lastResponseID : String
  err : Option GoError
  deriving DecidableEq, Repr

/-- Go `(*OpenAIClient).resolveToolCalls`. The Go function recurses for as long as the
backend keeps asking for tools; `fuel` bounds the number of nested calls and `none` means
the bound was reached before the function returned. -/
def resolveToolCalls {ω : Type} (c : Client ω) :
    Nat → Response → ω → Option (Resolved × ω)
  | 0, _, _ => none
  | fuel + 1, resp, w =>
    let st := resolveItems c resp.Output ⟨[], [], w⟩
    if st.toolOutputs.length > 0 then
      match c.ResponsesNew (followUpParams c resp st.toolOutputs) st.world with
      | (.error err, w2) =>
        some (⟨"", st.toolCalls, "", some (.wrap "failed to call response API: " err)⟩, w2)
      | (.ok nextResp, w2) =>
        match resolveToolCalls c fuel nextResp w2 with
        | none => none
        | some (next, w3) =>
          match next.err with
          | some err => some (⟨"", st.toolCalls, "", some err⟩, w3)
          | none =>
            some (⟨next.text, st.toolCalls ++ next.toolCalls, next.lastResponseID, none⟩, w3)
    else
      some (⟨c.OutputText resp, st.toolCalls, resp.ID, none⟩, st.world)

/-- The backward loop of `GenerateResponse` (lines 43-51), with `n` the number of turns not
yet looked at: the turn examined is `conversationHistory[n - 1]`, and `n = 0` is the exit of
the loop with `previousResponseID` still empty. -/
def scanPreviousResponseID (conversationHistory : Slice ConversationTurn) : Nat → String
  | 0 => ""
  | i + 1 =>
    match conversationHistory[i]? with
    | none => scanPreviousResponseID conversationHistory i
    | some turn =>
      if turn.Role = "assistant" then
        match turn.Metadata.lookup "previous_response_id" with
        | some respID => respID
        | none => scanPreviousResponseID conversationHistory i
      else scanPreviousResponseID conversationHistory i

/-- The value of `previousResponseID` after the loop of lines 43-51. -/
def findPreviousResponseID (conversationHistory : Slice ConversationTurn) : String :=
  scanPreviousResponseID conversationHistory conversationHistory.length

/-- Lines 53-58 of `GenerateResponse`: the id is probed with `Responses.Get` when it is
not empty, and emptied when the probe fails. -/
def checkPreviousResponseID {ω : Type} (c : Client ω) (previousResponseID : String) (w : ω) :
    String × ω :=
  if previousResponseID ≠ "" then
    match c.ResponsesGet previousResponseID w with
    | (some _, w1) => ("", w1)
    | (none, w1) => (previousResponseID, w1)
  else (previousResponseID, w)

/-- Lines 60-73 of `GenerateResponse`: the first request of an exchange. -/
def newParams {ω : Type} (c : Client ω) (userInput previousResponseID : String) :
    ResponseNewParams :=
  { Model := ChatModelGPT4_1
    Instructions := some c.systemPrompt
    Input := [.OfMessage userInput EasyInputMessageRoleUser]
    Tools := GetAllToolParams c.schemas
    PreviousResponseID := if previousResponseID ≠ "" then some previousResponseID else none }

/-- The user turn built at lines 86-89. -/
def userTurn (userInput : String) : ConversationTurn :=
  { Role := "user", Content := userInput }

/-- The assistant turn built at lines 95-102. -/
def assistantTurn (responseText : String) (toolCalls : Slice ToolCall)
    (lastResponseID : String) : ConversationTurn :=
  { Role := "assistant", Content := responseText, ToolCalls := toolCalls,
    Metadata := [("previous_response_id", lastResponseID)] }

/-- Lines 85-107 of `GenerateResponse`: the two appends and the value returned. -/
def persistTurns {σ : Type} (store : Store σ) (userInput : String) (sessionID : SessionID)
    (responseText : String) (toolCalls : Slice ToolCall) (lastResponseID : String) (s : σ) :
    (String × Option GoError) × σ :=
  match store.Append sessionID (userTurn userInput) s with
  | (some err, s1) => (("", some (.wrap "failed to append user turn: " err)), s1)
  | (none, s1) =>
    match store.Append sessionID (assistantTurn responseText toolCalls lastResponseID) s1 with
    | (some err, s2) => (("", some (.wrap "failed to append assistant turn: " err)), s2)
    | (none, s2) => ((responseText, none), s2)

/-- Lines 60-107 of `GenerateResponse`, from the checked `previousResponseID` on. -/
def exchange {ω σ : Type} (c : Client ω) (store : Store σ) (fuel : Nat) (userInput : String)
    (sessionID : SessionID) (previousResponseID : String) (w : ω) (s : σ) :
    Option ((String × Option GoError) × ω × σ) :=
  match c.ResponsesNew (newParams c userInput previousResponseID) w with
  | (.error err, w1) => some (("", some (.wrap "failed to call response API: " err)), w1, s)
  | (.ok resp, w1) =>
    match resolveToolCalls c fuel resp w1 with
    | none => none
    | some (r, w2) =>
      match r.err with
      | some err => some (("", some err), w2, s)
      | none =>
        let (out, s1) := persistTurns store userInput sessionID r.text r.toolCalls
          r.lastResponseID s
        some (out, w2, s1)

/-- Go `(*OpenAIClient).GenerateResponse`; the result is the pair `(string, error)` with
the world and the store afterwards, and `none` when `resolveToolCalls` did not return
within `fuel` nested calls. -/
def GenerateResponse {ω σ : Type} (c : Client ω) (store : Store σ) (fuel : Nat)
    (userInput : String) (sessionID : SessionID) (w : ω) (s : σ) :
    Option ((String × Option GoError) × ω × σ) :=
  match store.List sessionID s with
  | .error err => some (("", some (.wrap "failed to list conversation history: " err)), w, s)
  | .ok conversationHistory =>
    let (previousResponseID, w1) :=
      checkPreviousResponseID c (findPreviousResponseID conversationHistory) w
    exchange c store fuel userInput sessionID previousResponseID w1 s

/-! ## Specification-side definitions -/

/-- The function `latestHandle(turns) -> option<handle>` of the specification, in its
words: the value under the key `previous_response_id` in the metadata of the last turn
that has role `assistant` and carries that key. -/
def latestHandle (turns : List ConversationTurn) : Option String :=
  ((turns.filter (fun t =>
      decide (t.Role = "assistant") &&
        (t.Metadata.lookup "previous_response_id").isSome)).getLast?).bind
    (fun t => t.Metadata.lookup "previous_response_id")

/-- The follow-up step of an exchange: the response `a.1`, received with the world in state
`a.2`, asks for tools, and the follow-up request `resolveToolCalls` then sends is answered
by the response `b.1`, leaving the world in state `b.2`. The responses of an exchange are
those reached from its first response by such steps. -/
def followUp {ω : Type} (c : Client ω) (a b : Response × ω) : Prop :=
  (resolveItems c a.1.Output ⟨[], [], a.2⟩).toolOutputs ≠ [] ∧
  c.ResponsesNew
      (followUpParams c a.1 (resolveItems c a.1.Output ⟨[], [], a.2⟩).toolOutputs)
      (resolveItems c a.1.Output ⟨[], [], a.2⟩).world = (.ok b.1, b.2)

/-- One call of `GenerateResponse`: the fuel it is run with, the session and the input. -/
structure Call where
  fuel : Nat
  sessionID : SessionID
  userInput : String
  deriving DecidableEq, Repr

/-- A sequence of calls of `GenerateResponse` on one client and one store, each on the
world and the store the one before left, as the loop of `ui.Conversation.Run` makes them
(`out, err := c.outputGenerator.GenerateResponse(ctx, userInput, c.currentSession)`; an
error is printed and the loop goes on). The pair `(string, error)` of every call is kept;
`none` when a call did not return within its fuel. -/
def runExchanges {ω σ : Type} (c : Client ω) (store : Store σ) :
    List Call → ω → σ → Option (List (String × Option GoError) × ω × σ)
  | [], w, s => some ([], w, s)
  | call :: calls, w, s =>
    match GenerateResponse c store call.fuel call.userInput call.sessionID w s with
    | none => none
    | some (out, w1, s1) =>
      match runExchanges c store calls w1 s1 with
      | none => none
      | some (outs, w2, s2) => some (out :: outs, w2, s2)

/-- The invariant of the data model, in its words: every user turn is immediately followed
by exactly one assistant turn (the turn after it is an assistant turn, and the turn after
that one is not). -/
def EveryUserTurnAnswered (turns : List ConversationTurn) : Prop :=
  ∀ i, ∀ t, turns[i]? = some t → t.Role = "user" →
    (∃ a, turns[i + 1]? = some a ∧ a.Role = "assistant") ∧
    (∀ b, turns[i + 2]? = some b → b.Role ≠ "assistant")

/-- A log made of exchanges: user turn, assistant turn, user turn, assistant turn, ... -/
def exchangesOnly : List ConversationTurn → Bool
  | [] => true
  | u :: a :: rest => decide (u.Role = "user") && decide (a.Role = "assistant") &&
      exchangesOnly rest
  | [_] => false

/-- What the orchestrator relies on in a store, for a session `S`: in the states `good`
(kept by `Append`), `List(S)` gives the log of `S`, an `Append` to `S` that returns no error
adds its turn at the end of the log, and an `Append` that returns an error, or goes to
another session, leaves the log of `S` as it is. -/
structure KeepsLog {σ : Type} (store : Store σ) (S : SessionID) (good : σ → Prop)
    (log : σ → List ConversationTurn) : Prop where
  list_eq : ∀ s turns, good s → store.List S s = .ok turns → turns = log s
  append_good : ∀ S1 t s, good s → good (store.Append S1 t s).2
  append_ok : ∀ t s, good s → (store.Append S t s).1 = none →
    log (store.Append S t s).2 = log s ++ [t]
  append_err : ∀ t s e, good s → (store.Append S t s).1 = some e →
    log (store.Append S t s).2 = log s
  append_other : ∀ S1 t s, good s → S1 ≠ S → log (store.Append S1 t s).2 = log s

/-- The pointers the in-memory store holds for `S` all refer to objects of the heap. -/
def InMemoryStore.valid (S : SessionID) (hs : Heap × InMemoryStore) : Prop :=
  ∀ p ∈ (hs.2.data S).getD [], p < hs.1.cells.length

/-- The turns the in-memory store holds for `S`, read through its pointers. -/
def InMemoryStore.log (S : SessionID) (hs : Heap × InMemoryStore) : Slice ConversationTurn :=
  ((hs.2.data S).getD []).map (fun p => (hs.1.deref p).getD ⟨"", "", [], []⟩)

/-- The log that exchanges with the given inputs and assistant turns make: the user turn
of the first input, the first assistant turn, the user turn of the second input, ... -/
def interleave : List String → List ConversationTurn → List ConversationTurn
  | input :: inputs, a :: as => ⟨"user", input, [], []⟩ :: a :: interleave inputs as
  | _, _ => []

/-! ## A scripted backend and a small tool set, to run the code on concrete inputs -/

/-- The world of a scripted backend over a tool world `φ`: the answers the next calls of
`Responses.New` give, the response ids `Responses.Get` finds, the requests received so
far, the lines written to the debug writer, and the world of the tools. -/
structure Scripted (φ : Type) where
  script : List (Except GoError Response)
  known : List String
  requests : List ResponseNewParams
  debug : List String
  fs : φ

/-- A tool over `φ` run inside a scripted world. -/
def Tool.lift {φ : Type} (t : Tool φ) : Tool (Scripted φ) where
  Params := t.Params
  Out := t.Out
  Unmarshal := t.Unmarshal
  Run := fun args w => ((t.Run args w.fs).1, { w with fs := (t.Run args w.fs).2 })
  Marshal := t.Marshal

/-- The five tools run inside a scripted world. -/
def Tools.lift {φ : Type} (ts : Tools φ) : Tools (Scripted φ) :=
  ⟨ts.ReadFile.lift, ts.ListFile.lift, ts.GrepFile.lift, ts.WriteFile.lift,
    ts.PatchFile.lift⟩

/-- The text of a response: the text parts of its items, in order. -/
def Response.text (r : Response) : String :=
  String.join (r.Output.map (fun item => String.join item.Content))

/-- A client whose backend is scripted: `Responses.New` records the request and gives the
next answer of the script (an error once the script is used up), `Responses.Get` finds
exactly the ids in `known`. -/
def scriptedClient {φ : Type} (ts : Tools φ) : Client (Scripted φ) where
  ResponsesGet := fun id w =>
    (if id ∈ w.known then none else some (.new "404 Not Found"), w)
  ResponsesNew := fun params w =>
    match w.script with
    | [] => (.error (.new "scripted backend: no answer left"),
        { w with requests := w.requests ++ [params] })
    | r :: rest => (r, { w with script := rest, requests := w.requests ++ [params] })
  OutputText := Response.text
  debugOutput := fun line w => { w with debug := w.debug ++ [line] }
  tools := ts.lift
  systemPrompt := "You are a coding agent."
  schemas := ⟨"", "", "", "", ""⟩

/-- A tool over a file system given as path/content pairs: the arguments are the path
(empty arguments do not decode), and the tool reads the file. -/
def demoRead : Tool (List (String × String)) where
  Params := String
  Out := String
  Unmarshal := fun args =>
    if args = "" then .error (.new "unexpected end of JSON input") else .ok args
  Run := fun path fs =>
    match fs.lookup path with
    | none => (.error (.new ("open " ++ path ++ ": no such file or directory")), fs)
    | some content => (.ok content, fs)
  Marshal := fun out => .ok out

/-- A tool over the same file system that lists the paths. -/
def demoList : Tool (List (String × String)) where
  Params := String
  Out := List String
  Unmarshal := fun args => .ok args
  Run := fun _ fs => (.ok (fs.map Prod.fst), fs)
  Marshal := fun out => .ok (String.intercalate "," out)

/-- A tool set for the examples: `read_file` reads, the other four list. -/
def demoTools : Tools (List (String × String)) :=
  ⟨demoRead, demoList, demoList, demoList, demoList⟩

/-- A store whose `Append` can fail, as `(*SQLiteStore).Append` does when `s.db.Exec`
returns an error (`fmt.Errorf("failed to insert turn: %w", err)`, nothing inserted): the
turns are kept as in `InMemoryStore.asStore`, and the state carries the outcomes of the
coming `Append` calls (`true`: the insert fails). -/
def faultyStore : Store (List Bool × Heap × InMemoryStore) where
  List := fun sessionID s => InMemoryStore.asStore.List sessionID s.2
  Append := fun sessionID turn s =>
    match s.1 with
    | true :: faults =>
      (some (.wrap "failed to insert turn: " (.new "disk I/O error")), (faults, s.2))
    | false :: faults =>
      ((InMemoryStore.asStore.Append sessionID turn s.2).1,
        (faults, (InMemoryStore.asStore.Append sessionID turn s.2).2))
    | [] =>
      ((InMemoryStore.asStore.Append sessionID turn s.2).1,
        ([], (InMemoryStore.asStore.Append sessionID turn s.2).2))

/-- A response asking for tool A (`read_file` on `a.txt`). -/
def respA : Response :=
  ⟨"resp_1", [⟨"function_call", "call_1", "read_file", "a.txt", []⟩]⟩

/-- A response asking for tool B (`list_file`). -/
def respB : Response :=
  ⟨"resp_2", [⟨"function_call", "call_2", "list_file", ".", []⟩]⟩

/-- A response with the final text and no tool invocation. -/
def respDone : Response :=
  ⟨"resp_3", [⟨"message", "", "", "", ["done"]⟩]⟩

/-- A scripted world with one file, whose backend answers with `script`. -/
def demoWorld (script : List (Except GoError Response)) : Scripted (List (String × String)) :=
  { script := script, known := [], requests := [], debug := [], fs := [("a.txt", "AAA")] }

/-- A response asking for `read_file` on a file that does not exist. -/
def respFail : Response :=
  ⟨"resp_1", [⟨"function_call", "call_1", "read_file", "missing.txt", []⟩]⟩

/-- An in-memory store in which the session `s` holds one earlier exchange, whose assistant
turn carries the handle `resp_old`. -/
def demoHistory : Heap × InMemoryStore :=
  (InMemoryStore.asStore.Append "s" (assistantTurn "a" [] "resp_old")
    (InMemoryStore.asStore.Append "s" (userTurn "q") (⟨[]⟩, NewInMemoryStore)).2).2

/-- A backend error used in the examples. -/
def err503 : GoError := .new "503 Service Unavailable"

/-! ## `session/sqlite_store.go` -/

/-- One step of ranging over a Go string (`utf8.DecodeRuneInString`): the rune of a valid
UTF-8 sequence, or one byte at which no valid sequence begins (where the decoder gives
`RuneError` of width 1). -/
inductive GoUnit where
  | rune (c : Char)
  | invalid (byte : Nat)
  deriving DecidableEq, Repr

/-- A Go `string` as the durable store receives it: any sequence of bytes, given by the
steps of ranging over it, which determine the bytes: `"bin\xff\xfe"` is the runes `b`,
`i`, `n` and the invalid bytes `0xff`, `0xfe`. (A Lean `String` stands for a Go string
that is valid UTF-8.) -/
structure GoString where
  units : List GoUnit
  deriving DecidableEq, Repr

/-- The Go string with the UTF-8 bytes of a Lean string. -/
def GoString.ofString (s : String) : GoString :=
  ⟨s.data.map GoUnit.rune⟩

/-- The rune `encoding/json` writes for one step over a string: the rune itself, or
U+FFFD for an invalid byte. -/
def GoUnit.toChar : GoUnit → Char
  | .rune c => c
  | .invalid _ => Char.ofNat 0xFFFD

/-- The runes `encoding/json` writes for a string ("coerced to valid UTF-8, replacing
invalid bytes with the Unicode replacement rune"). -/
def GoString.toChars (g : GoString) : List Char :=
  g.units.map GoUnit.toChar

/-- The Go string made of the given runes. -/
def GoString.ofChars (cs : List Char) : GoString :=
  ⟨cs.map GoUnit.rune⟩

/-- The string `encoding/json` writes for a string, read back: every invalid byte has
become the rune U+FFFD. -/
def GoString.coerced (g : GoString) : GoString :=
  .ofChars g.toChars

/-- A Go string that is valid UTF-8 (`utf8.ValidString`): every step is a rune. -/
def GoString.Valid (g : GoString) : Prop :=
  g.coerced = g

/-- Go `session.ToolCall`, its strings being any Go strings. -/
structure RawToolCall where
  Name : GoString
  Arguments : GoString
  Result : GoString
  deriving DecidableEq, Repr

/-- Go `session.ConversationTurn`, its strings being any Go strings. -/
structure RawConversationTurn where
  Role : GoString
  Content : GoString
  ToolCalls : Slice RawToolCall := []
  Metadata : List (GoString × GoString) := []
  deriving DecidableEq, Repr

/-- A tool call as `encoding/json` writes it, read back. -/
def RawToolCall.coerced (c : RawToolCall) : RawToolCall :=
  ⟨c.Name.coerced, c.Arguments.coerced, c.Result.coerced⟩

/-- A turn whose tool calls and metadata are as `encoding/json` writes them, read back;
the role and the content are as they are. -/
def RawConversationTurn.coerced (t : RawConversationTurn) : RawConversationTurn :=
  { t with
    ToolCalls := t.ToolCalls.map RawToolCall.coerced
    Metadata := t.Metadata.map (fun kv => (kv.1.coerced, kv.2.coerced)) }

/-- The name, the arguments and the result of a tool call are valid UTF-8. -/
def RawToolCall.Valid (c : RawToolCall) : Prop :=
  c.Name.Valid ∧ c.Arguments.Valid ∧ c.Result.Valid

/-- The strings of the tool calls and of the metadata of a turn are valid UTF-8. -/
def RawConversationTurn.Valid (t : RawConversationTurn) : Prop :=
  (∀ c ∈ t.ToolCalls, c.Valid) ∧ ∀ kv ∈ t.Metadata, kv.1.Valid ∧ kv.2.Valid

/-- A tool call whose strings are valid UTF-8, as a Go tool call. -/
def ToolCall.raw (c : ToolCall) : RawToolCall :=
  ⟨.ofString c.Name, .ofString c.Arguments, .ofString c.Result⟩

/-- A turn whose strings are valid UTF-8, as a Go turn. -/
def ConversationTurn.raw (t : ConversationTurn) : RawConversationTurn :=
  ⟨.ofString t.Role, .ofString t.Content, t.ToolCalls.map ToolCall.raw,
    t.Metadata.map (fun kv => (.ofString kv.1, .ofString kv.2))⟩

/-- A row of the table `conversation_turns` (`id`, `session_id`, `role`, `content` and the
two nullable text columns; `created_at` is filled by the database and never read). The
texts `role` and `content` are stored as the bytes they are. -/
structure Row where
  id : Nat
  session_id : String
  role : GoString
  content : GoString
  tool_calls : Option String
  metadata : Option String
  deriving DecidableEq, Repr

/-- The `*sql.DB` of a `SQLiteStore`, as far as the store uses it: whether the handle was
closed; the error with which the engine aborts the `INSERT` of a row in this state, if it
does (no room left for the row on the disk, a text over the length limit of the engine);
the rows of `conversation_turns` in the order of their `id`; and the largest `id` given
out so far (what `AUTOINCREMENT` keeps). -/
structure DB where
  closed : Bool
  insertFault : Row → Option GoError
  rows : List Row
  seq : Nat

/-- The database `NewSQLiteStore` opens on a new file with room on the disk: the table
just created. -/
def DB.empty : DB :=
  ⟨false, fun _ => none, [], 0⟩

/-- The error of `database/sql` for a statement on a closed handle. -/
def errDatabaseClosed : GoError :=
  .new "sql: database is closed"

/-- The error of SQLite (`SQLITE_FULL`) for an insert that finds no room, or no id left
for the row. -/
def errDatabaseFull : GoError :=
  .new "database or disk is full"

/-- The largest `id` of an `INTEGER PRIMARY KEY`: 2^63 - 1. -/
def maxRowid : Nat := 9223372036854775807

/-- The state kept by the database engine: ids grow along the rows, none is larger than
the largest id given out, and that is an id. -/
def DB.WF (db : DB) : Prop :=
  db.rows.Pairwise (fun a b => a.id < b.id) ∧ (∀ r ∈ db.rows, r.id ≤ db.seq) ∧
    db.seq ≤ maxRowid

/-- The statement of `Append`, `INSERT INTO conversation_turns (session_id, role, content,
tool_calls, metadata) VALUES (?, ?, ?, ?, ?)`, through `s.db.Exec`. It fails on a closed
handle, with the error of the engine when the engine aborts the insert, and with
`SQLITE_FULL` when the largest id of the `AUTOINCREMENT` key has been used; the table is
then as it was. Otherwise the row is added under the next id. -/
def DB.execInsert (db : DB) (session_id : String) (role content : GoString)
    (tool_calls metadata : Option String) : Option GoError × DB :=
  if db.closed then (some errDatabaseClosed, db)
  else
    match db.insertFault ⟨db.seq + 1, session_id, role, content, tool_calls, metadata⟩ with
    | some err => (some err, db)
    | none =>
      if maxRowid ≤ db.seq then (some errDatabaseFull, db)
      else (none, { db with
        rows := db.rows ++ [⟨db.seq + 1, session_id, role, content, tool_calls, metadata⟩]
        seq := db.seq + 1 })

/-- The statement of `List`, `SELECT role, content, tool_calls, metadata FROM
conversation_turns WHERE session_id = ? ORDER BY id ASC`, through `s.db.Query`. -/
def DB.querySelect (db : DB) (session_id : String) : Except GoError (List Row) :=
  if db.closed then .error errDatabaseClosed
  else .ok ((db.rows.filter (fun r => decide (r.session_id = session_id))).insertionSort
    (fun a b => a.id ≤ b.id))

/-- The statement of `Delete`, `DELETE FROM conversation_turns WHERE session_id = ?`,
through `s.db.Exec`. -/
def DB.execDelete (db : DB) (session_id : String) : Option GoError × DB :=
  if db.closed then (some errDatabaseClosed, db)
  else (none, { db with rows := db.rows.filter (fun r => !decide (r.session_id = session_id)) })

/-- Go `(*SQLiteStore).Close`. -/
def SQLiteStore.Close (db : DB) : Option GoError × DB :=
  (none, { db with closed := true })

/-- The type `sql.NullString` (its field `String` is written `String_`). -/
structure NullString where
  String_ : String
  Valid : Bool
  deriving DecidableEq, Repr

/-- What the driver stores for a `sql.NullString` argument: `NULL` when it is not valid. -/
def NullString.toColumn (n : NullString) : Option String :=
  if n.Valid then some n.String_ else none

/-- What `rows.Scan` puts into a `sql.NullString` for a column value. -/
def NullString.scan : Option String → NullString
  | none => ⟨"", false⟩
  | some s => ⟨s, true⟩

/-- The calls of `encoding/json` the store makes: `json.Marshal(turn.ToolCalls)`,
`json.Unmarshal(..., &turn.ToolCalls)`, `json.Marshal(turn.Metadata)` and
`json.Unmarshal(..., &turn.Metadata)`; the text is JSON, which is valid UTF-8. -/
structure JSON where
  MarshalToolCalls : Slice RawToolCall → Except GoError String
  UnmarshalToolCalls : String → Except GoError (Slice RawToolCall)
  MarshalMetadata : List (GoString × GoString) → Except GoError String
  UnmarshalMetadata : String → Except GoError (List (GoString × GoString))

/-- What the store has from `encoding/json`. A non-empty slice of tool calls is encoded
without error into a text that is not empty, and decoding that text gives the tool calls
with every invalid byte of their strings replaced by U+FFFD (`json.Marshal` writes
strings "coerced to valid UTF-8"): the same tool calls exactly when their strings are
valid UTF-8. The same holds for a non-empty map, given by its pairs, whose keys are still
distinct after that replacement (a JSON object of two equal keys decodes to one entry). -/
structure JSON.Lawful (js : JSON) : Prop where
  toolCalls : ∀ calls : Slice RawToolCall, calls ≠ [] →
    ∃ text, js.MarshalToolCalls calls = .ok text ∧ text ≠ "" ∧
      js.UnmarshalToolCalls text = .ok (calls.map RawToolCall.coerced)
  metadata : ∀ m : List (GoString × GoString), m ≠ [] →
    (m.map (fun kv => kv.1.coerced)).Nodup →
    ∃ text, js.MarshalMetadata m = .ok text ∧ text ≠ "" ∧
      js.UnmarshalMetadata text = .ok (m.map (fun kv => (kv.1.coerced, kv.2.coerced)))

/-- The body of `for rows.Next()` in `(*SQLiteStore).List` (lines 63-95) for one row: scan
the columns, decode the two nullable ones when they are valid and not empty. -/
def SQLiteStore.scanTurn (js : JSON) (row : Row) : Except GoError RawConversationTurn :=
  let role := row.role
  let content := row.content
  let toolCallsStr := NullString.scan row.tool_calls
  let metadataStr := NullString.scan row.metadata
  let turn : RawConversationTurn := { Role := role, Content := content }
  match (if toolCallsStr.Valid && decide (toolCallsStr.String_ ≠ "") then
      match js.UnmarshalToolCalls toolCallsStr.String_ with
      | .error err => Except.error (GoError.wrap "failed to unmarshal tool_calls: " err)
      | .ok calls => .ok { turn with ToolCalls := calls }
    else .ok turn) with
  | .error err => .error err
  | .ok turn1 =>
    if metadataStr.Valid && decide (metadataStr.String_ ≠ "") then
      match js.UnmarshalMetadata metadataStr.String_ with
      | .error err => .error (.wrap "failed to unmarshal metadata: " err)
      | .ok m => .ok { turn1 with Metadata := m }
    else .ok turn1

/-- The loop `for rows.Next()` of `(*SQLiteStore).List`, from the turns gathered so far. -/
def SQLiteStore.scanRows (js : JSON) : List Row → Slice RawConversationTurn →
    Except GoError (Slice RawConversationTurn)
  | [], turns => .ok turns
  | row :: rows, turns =>
    match SQLiteStore.scanTurn js row with
    | .error err => .error err
    | .ok turn => SQLiteStore.scanRows js rows (turns ++ [turn])

/-- Go `(*SQLiteStore).List`; the turns are given by value (each is a fresh object), and
`rows.Scan` and `rows.Err` do not fail on the columns of this table. -/
def SQLiteStore.List (js : JSON) (db : DB) (sessionID : SessionID) :
    Except GoError (Slice RawConversationTurn) :=
  match db.querySelect sessionID with
  | .error err => .error (.wrap "failed to query turns: " err)
  | .ok rows => SQLiteStore.scanRows js rows []

/-- Go `(*SQLiteStore).Append`, on the turn the pointer refers to. -/
def SQLiteStore.Append (js : JSON) (db : DB) (sessionID : SessionID)
    (turn : RawConversationTurn) : Option GoError × DB :=
  match (if turn.ToolCalls.length > 0 then
      match js.MarshalToolCalls turn.ToolCalls with
      | .error err => Except.error (GoError.wrap "failed to marshal tool_calls: " err)
      | .ok toolCallsJSON => .ok (⟨toolCallsJSON, true⟩ : NullString)
    else .ok ⟨"", false⟩) with
  | .error err => (some err, db)
  | .ok toolCallsStr =>
    match (if turn.Metadata.length > 0 then
        match js.MarshalMetadata turn.Metadata with
        | .error err => Except.error (GoError.wrap "failed to marshal metadata: " err)
        | .ok metadataJSON => .ok (⟨metadataJSON, true⟩ : NullString)
      else .ok ⟨"", false⟩) with
    | .error err => (some err, db)
    | .ok metadataStr =>
      match db.execInsert sessionID turn.Role turn.Content toolCallsStr.toColumn
          metadataStr.toColumn with
      | (some err, db1) => (some (.wrap "failed to insert turn: " err), db1)
      | (none, db1) => (none, db1)

/-- Go `(*SQLiteStore).Delete`. -/
def SQLiteStore.Delete (db : DB) (sessionID : SessionID) : Option GoError × DB :=
  match db.execDelete sessionID with
  | (some err, db1) => (some (.wrap "failed to delete session: " err), db1)
  | (none, db1) => (none, db1)

/-- A text encoding of a string for the examples: every character preceded by `c`, and
`e` at the end. -/
def encChars : List Char → List Char
  | [] => ['e']
  | x :: xs => 'c' :: x :: encChars xs

/-- The encoding of a list of strings: their encodings one after the other. -/
def encAll : List (List Char) → List Char
  | [] => []
  | s :: ss => encChars s ++ encAll ss

/-- The decoding of `encAll`, with the characters of the string being read (last first). -/
def decAll : List Char → List Char → Option (List (List Char))
  | [], cur => if cur = [] then some [] else none
  | [x], cur => if x = 'e' then some [cur.reverse] else none
  | x :: y :: rest, cur =>
    if x = 'e' then (decAll (y :: rest) []).map (fun ss => cur.reverse :: ss)
    else if x = 'c' then decAll rest (y :: cur)
    else none

/-- Tool calls read from a list of strings, three by three. -/
def toolCallsOfStrings : List (List Char) → Option (Slice RawToolCall)
  | [] => some []
  | n :: a :: r :: rest =>
    (toolCallsOfStrings rest).map
      (fun calls => ⟨.ofChars n, .ofChars a, .ofChars r⟩ :: calls)
  | _ => none

/-- Key/value pairs read from a list of strings, two by two. -/
def pairsOfStrings : List (List Char) → Option (List (GoString × GoString))
  | [] => some []
  | k :: v :: rest => (pairsOfStrings rest).map (fun m => (.ofChars k, .ofChars v) :: m)
  | _ => none

/-- An encoder and decoder standing for `encoding/json` in the examples. Like
`json.Marshal`, the encoder writes the runes of a string, with U+FFFD for every invalid
byte; the text format is its own. -/
def demoJSON : JSON where
  MarshalToolCalls := fun calls =>
    .ok ⟨encAll (calls.map (fun c =>
      [c.Name.toChars, c.Arguments.toChars, c.Result.toChars])).flatten⟩
  UnmarshalToolCalls := fun text =>
    match (decAll text.data []).bind toolCallsOfStrings with
    | some calls => .ok calls
    | none => .error (.new "invalid character")
  MarshalMetadata := fun m =>
    .ok ⟨encAll (m.map (fun kv => [kv.1.toChars, kv.2.toChars])).flatten⟩
  UnmarshalMetadata := fun text =>
    match (decAll text.data []).bind pairsOfStrings with
    | some m => .ok m
    | none => .error (.new "invalid character")

/-- A turn with tool calls and metadata, all valid UTF-8, for the examples. -/
def demoTurn : RawConversationTurn :=
  ConversationTurn.raw
    { Role := "assistant", Content := "done",
      ToolCalls := [⟨"read_file", "a.txt", "AAA"⟩, ⟨"list_file", ".", "a.txt"⟩],
      Metadata := [("previous_response_id", "resp_3")] }

/-- The Go string `"bin\xff\xfe"`: three runes and two bytes that are not UTF-8. -/
def binaryResult : GoString :=
  ⟨[.rune 'b', .rune 'i', .rune 'n', .invalid 0xff, .invalid 0xfe]⟩

/-- The Go string `"bin\ufffd\ufffd"`: the three runes and two runes U+FFFD. -/
def replacedResult : GoString :=
  ⟨[.rune 'b', .rune 'i', .rune 'n', .rune (Char.ofNat 0xFFFD), .rune (Char.ofNat 0xFFFD)]⟩

/-- A turn whose tool call has a result that is not valid UTF-8. -/
def binaryTurn : RawConversationTurn :=
  { Role := .ofString "assistant", Content := .ofString "ok",
    ToolCalls := [⟨.ofString "read_file", .ofString "a.bin", binaryResult⟩] }

/-! ## `ai/tools/patch_file.go` -/

/-- The generated type `PatchFileParamsJson` (from `patch_file_params.json`): the path of
the file and the patch text. -/
structure PatchFileParamsJson where
  Path : String
  Patch : String
  deriving DecidableEq, Repr

/-- Go `tools.PatchFileOut`. -/
structure PatchFileOut where
  Success : Bool
  Message : String
  deriving DecidableEq, Repr

/-- What `PatchFile` calls outside the repository, over a world `ω` (the file system):
`os.ReadFile`, `os.WriteFile(name, data, 0644)` with the Go `error` it returns and the
world it leaves, the type `*gitdiff.File` with `gitdiff.Parse` (its list of files and its
error) and `gitdiff.Apply` (the content written to the output buffer, or its error), and
the formatting of `%q`. -/
structure PatchEnv (ω : Type) where
  ReadFile : String → ω → Except GoError String
  WriteFile : String → String → ω → Option GoError × ω
  File : Type
  Parse : String → Except GoError (List File)
  Apply : String → File → Except GoError String
  Quote : String → String

/-- Go `tools.PatchFile`. -/
def PatchFile {ω : Type} (env : PatchEnv ω) (args : PatchFileParamsJson) (w : ω) :
    Except GoError PatchFileOut × ω :=
  match env.ReadFile args.Path w with
  | .error err =>
    (.error (.wrap ("ファイル " ++ env.Quote args.Path ++ " の読み込みに失敗しました: ") err), w)
  | .ok originalContent =>
    match env.Parse args.Patch with
    | .error err => (.error (.wrap "パッチのパースに失敗しました: " err), w)
    | .ok files =>
      match files with
      | [] => (.error (.new "パッチが空です"), w)
      | file :: _ =>
        match env.Apply originalContent file with
        | .error err => (.error (.wrap "パッチの適用に失敗しました: " err), w)
        | .ok output =>
          match env.WriteFile args.Path output w with
          | (some err, w1) =>
            (.error (.wrap ("ファイル " ++ env.Quote args.Path ++ " の書き込みに失敗しました: ")
              err), w1)
          | (none, w1) =>
            (.ok ⟨true, "ファイル " ++ env.Quote args.Path ++ " にパッチを適用しました"⟩, w1)

/-- A disk for the examples: the files with their contents, and the number of characters
it can still take. -/
structure Disk where
  files : List (String × String)
  room : Nat
  deriving DecidableEq, Repr

/-- The content of a file on the disk set to `content` (the file created if absent). -/
def Disk.put (d : Disk) (name content : String) : List (String × String) :=
  if (d.files.lookup name).isSome then
    d.files.map (fun f => if f.1 = name then (name, content) else f)
  else d.files ++ [(name, content)]

/-- The function `os.WriteFile` on the disk of the examples, as package `os` documents it:
the file is truncated before writing, and a failure in the middle (here: no space left)
leaves it partially written. -/
def Disk.WriteFile (name data : String) (d : Disk) : Option GoError × Disk :=
  if data.length ≤ d.room then (none, ⟨d.put name data, d.room - data.length⟩)
  else
    (some (.new ("write " ++ name ++ ": no space left on device")),
      ⟨d.put name ⟨data.data.take d.room⟩, 0⟩)

/-- The function `os.ReadFile` on the disk of the examples. -/
def Disk.ReadFile (name : String) (d : Disk) : Except GoError String :=
  match d.files.lookup name with
  | some content => .ok content
  | none => .error (.new ("open " ++ name ++ ": no such file or directory"))

/-- The characters before and after the first `c` of a text, if there is one. -/
def splitFirst (c : Char) : List Char → Option (List Char × List Char)
  | [] => none
  | x :: xs =>
    if x = c then some ([], xs) else (splitFirst c xs).map (fun p => (x :: p.1, p.2))

/-- A patch format for the examples: a file patch is the content it expects and the content
it produces, written `old>new`; the empty text holds no file patch, and any other text
without `>` does not parse. -/
def demoParse (patch : String) : Except GoError (List (String × String)) :=
  if patch = "" then .ok []
  else
    match splitFirst '>' patch.data with
    | some (old, new) => .ok [(⟨old⟩, ⟨new⟩)]
    | none => .error (.new "gitdiff: invalid patch")

/-- The externals of `PatchFile` for the examples. -/
def demoPatchEnv : PatchEnv Disk where
  ReadFile := Disk.ReadFile
  WriteFile := Disk.WriteFile
  File := String × String
  Parse := demoParse
  Apply := fun src file =>
    if src = file.1 then .ok file.2 else .error (.new "gitdiff: conflict")
  Quote := fun s => "\"" ++ s ++ "\""

/-- A client whose backend answers every request with a response that asks for tool A. -/
def alwaysToolClient {φ : Type} (ts : Tools φ) : Client (Scripted φ) :=
  { scriptedClient ts with
    ResponsesNew := fun params w =>
      (.ok respA, { w with requests := w.requests ++ [params] }) }

/-! ## Theorems -/

/-! ### The backward scan for the continuation handle -/

theorem scanPreviousResponseID_eq (hist : List ConversationTurn) :
    ∀ n, n ≤ hist.length →
      scanPreviousResponseID hist n = (latestHandle (hist.take n)).getD "" := by
  intro n
  induction n with
  | zero => intro _; rfl
  | succ n ih =>
    intro hn
    have hlt : n < hist.length := hn
    have htake : hist.take (n + 1) = hist.take n ++ [hist[n]] := by
      rw [List.take_succ, List.getElem?_eq_getElem hlt]; rfl
    have ih1 := ih (Nat.le_of_lt hlt)
    rw [scanPreviousResponseID, List.getElem?_eq_getElem hlt]
    simp only []
    unfold latestHandle at ih1 ⊢
    rw [htake, List.filter_append]
    generalize "previous_response_id" = key at ih1 ⊢
    generalize "assistant" = role at ih1 ⊢
    generalize hist[n] = t at ih1 ⊢
    by_cases hrole : t.Role = role
    · rw [if_pos hrole]
      cases hkey : t.Metadata.lookup key with
      | some v =>
        simp [List.filter_cons, hrole, hkey]
      | none =>
        simp only []
        rw [ih1]
        simp [List.filter_cons, hrole, hkey]
    · rw [if_neg hrole, ih1]
      simp [List.filter_cons, hrole]

/-- C6: the continuation handle `GenerateResponse` picks from the loaded history before
validating it is the value under `previous_response_id` in the metadata of the last turn
with role `assistant` that carries the key, and the empty string (no handle) when there is
no such turn. -/
theorem findPreviousResponseID_eq_latestHandle (hist : List ConversationTurn) :
    findPreviousResponseID hist = (latestHandle hist).getD "" := by
  have h := scanPreviousResponseID_eq hist hist.length (Nat.le_refl _)
  rw [List.take_length] at h
  exact h

/-! ### The in-memory store -/

/-- C9: for every `InMemoryStore` state, session `S` and turn pointer `t`, `Append(S, t)`
returns no error, `List(S)` afterwards is the previous `List(S)` with `t` added as the last
element, and `List` of every other session is what it was. -/
theorem InMemoryStore_Append_List (s : InMemoryStore) (S : SessionID) (t : TurnPtr) :
    (s.Append S t).1 = none ∧
    (∃ prev, s.List S = .ok prev ∧ (s.Append S t).2.List S = .ok (prev ++ [t])) ∧
    (∀ S', S' ≠ S → (s.Append S t).2.List S' = s.List S') := by
  refine ⟨rfl, ?_, ?_⟩
  · cases h : s.data S with
    | none => exact ⟨[], by simp [InMemoryStore.List, h], by
        simp [InMemoryStore.List, InMemoryStore.Append, h, copySlice]⟩
    | some turns => exact ⟨turns, by simp [InMemoryStore.List, h, copySlice], by
        simp [InMemoryStore.List, InMemoryStore.Append, h, copySlice]⟩
  · intro S' hne
    simp [InMemoryStore.List, InMemoryStore.Append, hne]

/-- C9 at a concrete store: two sessions, an append to the first. -/
theorem InMemoryStore_Append_List_witness :
    (((NewInMemoryStore.Append "a" 0).2.Append "b" 1).2.Append "a" 2).2.List "a"
        = .ok [0, 2] ∧
    (((NewInMemoryStore.Append "a" 0).2.Append "b" 1).2.Append "a" 2).2.List "b"
        = ((NewInMemoryStore.Append "a" 0).2.Append "b" 1).2.List "b" := by
  have h := InMemoryStore_Append_List ((NewInMemoryStore.Append "a" 0).2.Append "b" 1).2 "a" 2
  refine ⟨?_, h.2.2 "b" (by decide)⟩
  obtain ⟨prev, h1, h2⟩ := h.2.1
  have h0 : ((NewInMemoryStore.Append "a" 0).2.Append "b" 1).2.List "a" = .ok [0] := by
    simp [InMemoryStore.List, InMemoryStore.Append, NewInMemoryStore, copySlice]
  rw [h0] at h1
  cases h1
  exact h2

/-- C10, the code at a failing input: the session `s` holds one turn; a caller takes
`List("s")`, assigns to the field `Content` of the turn its first element points to, and
a later `List("s")` (the same pointers, read on the heap as it is then) gives the changed
turn, where an unknown session still lists as empty. -/
theorem InMemoryStore_List_shares_turns :
    let h0 : Heap := ⟨[⟨"user", "hello", [], []⟩]⟩
    let s0 : InMemoryStore := (NewInMemoryStore.Append "s" 0).2
    let h1 : Heap := h0.assign 0 ⟨"user", "tampered", [], []⟩
    s0.List "s" = .ok [0] ∧
    InMemoryStore.asStore.List "s" (h0, s0) = .ok [⟨"user", "hello", [], []⟩] ∧
    InMemoryStore.asStore.List "s" (h1, s0) = .ok [⟨"user", "tampered", [], []⟩] ∧
    InMemoryStore.asStore.List "s" (h1, s0) ≠ InMemoryStore.asStore.List "s" (h0, s0) ∧
    s0.List "unknown" = .ok [] := by
  simp [InMemoryStore.List, InMemoryStore.Append, NewInMemoryStore, copySlice,
    InMemoryStore.asStore, Heap.assign, Heap.deref]

/-! ### The loop over the output items -/

theorem resolveItems_nil {ω : Type} (c : Client ω) (st : LoopState ω) :
    resolveItems c [] st = st := rfl

theorem resolveItems_cons {ω : Type} (c : Client ω) (x : ResponseOutputItemUnion)
    (xs : List ResponseOutputItemUnion) (st : LoopState ω) :
    resolveItems c (x :: xs) st = resolveItems c xs (resolveItem c st x) := rfl

theorem resolveItems_append {ω : Type} (c : Client ω) (xs ys : List ResponseOutputItemUnion)
    (st : LoopState ω) :
    resolveItems c (xs ++ ys) st = resolveItems c ys (resolveItems c xs st) := by
  unfold resolveItems
  exact List.foldl_append _ _ _ _

theorem resolveItem_skip {ω : Type} (c : Client ω) (st : LoopState ω)
    (item : ResponseOutputItemUnion) (h : item.Type_ ≠ "function_call") :
    resolveItem c st item = st := by
  unfold resolveItem
  rw [if_pos h]

theorem resolveItem_error {ω : Type} (c : Client ω) (st : LoopState ω)
    (item : ResponseOutputItemUnion) (e : GoError) (w1 : ω)
    (h : item.Type_ = "function_call")
    (hc : CallFunction c.tools item.Name item.Arguments
      (c.debugOutput ("function called: " ++ item.Name ++ "\n") st.world) = (.error e, w1)) :
    resolveItem c st item =
      ⟨st.toolOutputs ++ [.OfFunctionCallOutput item.CallID ("Error: " ++ e.Error)],
        st.toolCalls ++ [⟨item.Name, item.Arguments, "Error: " ++ e.Error⟩], w1⟩ := by
  unfold resolveItem
  rw [if_neg (not_not.mpr h)]
  simp only [handleFunctionCall, ResponseOutputItemUnion.AsFunctionCall]
  rw [hc]

theorem resolveItem_ok {ω : Type} (c : Client ω) (st : LoopState ω)
    (item : ResponseOutputItemUnion) (result : String) (w1 : ω)
    (h : item.Type_ = "function_call")
    (hc : CallFunction c.tools item.Name item.Arguments
      (c.debugOutput ("function called: " ++ item.Name ++ "\n") st.world) = (.ok result, w1)) :
    resolveItem c st item =
      ⟨st.toolOutputs ++ [.OfFunctionCallOutput item.CallID result],
        st.toolCalls ++ [⟨item.Name, item.Arguments, result⟩], w1⟩ := by
  unfold resolveItem
  rw [if_neg (not_not.mpr h)]
  simp only [handleFunctionCall, ResponseOutputItemUnion.AsFunctionCall]
  rw [hc]

theorem resolveItem_call {ω : Type} (c : Client ω) (st : LoopState ω)
    (item : ResponseOutputItemUnion) (h : item.Type_ = "function_call") :
    ∃ result w1, resolveItem c st item =
      ⟨st.toolOutputs ++ [.OfFunctionCallOutput item.CallID result],
        st.toolCalls ++ [⟨item.Name, item.Arguments, result⟩], w1⟩ := by
  cases hc : CallFunction c.tools item.Name item.Arguments
      (c.debugOutput ("function called: " ++ item.Name ++ "\n") st.world) with
  | mk r w1 =>
    cases r with
    | error e => exact ⟨_, w1, resolveItem_error c st item e w1 h hc⟩
    | ok result => exact ⟨_, w1, resolveItem_ok c st item result w1 h hc⟩

theorem resolveItems_skip {ω : Type} (c : Client ω) (items : List ResponseOutputItemUnion)
    (st : LoopState ω) (h : ∀ i ∈ items, i.Type_ ≠ "function_call") :
    resolveItems c items st = st := by
  induction items generalizing st with
  | nil => rfl
  | cons x xs ih =>
    rw [resolveItems_cons, resolveItem_skip c st x (h x (List.mem_cons_self _ _))]
    exact ih st (fun i hi => h i (List.mem_cons_of_mem _ hi))

/-- The loop records one call per `function_call` item, in the order of the items, and
adds one tool output per call. -/
theorem resolveItems_calls {ω : Type} (c : Client ω) (items : List ResponseOutputItemUnion)
    (st : LoopState ω) :
    (resolveItems c items st).toolCalls.map (fun tc => (tc.Name, tc.Arguments)) =
        st.toolCalls.map (fun tc => (tc.Name, tc.Arguments)) ++
          (items.filter (fun i => decide (i.Type_ = "function_call"))).map
            (fun i => (i.Name, i.Arguments)) ∧
    (resolveItems c items st).toolOutputs.length =
        st.toolOutputs.length +
          (items.filter (fun i => decide (i.Type_ = "function_call"))).length := by
  induction items generalizing st with
  | nil => simp [resolveItems_nil]
  | cons x xs ih =>
    rw [resolveItems_cons]
    by_cases hx : x.Type_ = "function_call"
    · obtain ⟨result, w1, hr⟩ := resolveItem_call c st x hx
      rw [hr]
      have h1 := ih ⟨st.toolOutputs ++ [.OfFunctionCallOutput x.CallID result],
        st.toolCalls ++ [⟨x.Name, x.Arguments, result⟩], w1⟩
      rw [h1.1, h1.2, List.filter_cons_of_pos (by simpa using hx)]
      constructor
      · simp
      · simp; omega
    · rw [resolveItem_skip c st x hx, List.filter_cons_of_neg (by simpa using hx)]
      exact ih st

/-! ### One level of `resolveToolCalls` -/

theorem resolveToolCalls_done {ω : Type} (c : Client ω) (fuel : Nat) (resp : Response) (w : ω)
    (h : (resolveItems c resp.Output ⟨[], [], w⟩).toolOutputs = []) :
    resolveToolCalls c (fuel + 1) resp w =
      some (⟨c.OutputText resp, (resolveItems c resp.Output ⟨[], [], w⟩).toolCalls, resp.ID,
        none⟩, (resolveItems c resp.Output ⟨[], [], w⟩).world) := by
  rw [resolveToolCalls]
  simp only [h, List.length_nil, gt_iff_lt, Nat.lt_irrefl, if_false]

theorem resolveToolCalls_newError {ω : Type} (c : Client ω) (fuel : Nat) (resp : Response)
    (w : ω) (err : GoError) (w2 : ω)
    (h : (resolveItems c resp.Output ⟨[], [], w⟩).toolOutputs ≠ [])
    (hn : c.ResponsesNew
        (followUpParams c resp (resolveItems c resp.Output ⟨[], [], w⟩).toolOutputs)
        (resolveItems c resp.Output ⟨[], [], w⟩).world = (.error err, w2)) :
    resolveToolCalls c (fuel + 1) resp w =
      some (⟨"", (resolveItems c resp.Output ⟨[], [], w⟩).toolCalls, "",
        some (.wrap "failed to call response API: " err)⟩, w2) := by
  rw [resolveToolCalls]
  have hpos : (resolveItems c resp.Output ⟨[], [], w⟩).toolOutputs.length > 0 :=
    List.length_pos.mpr h
  simp only [hpos, if_true, hn]

theorem resolveToolCalls_recurse {ω : Type} (c : Client ω) (fuel : Nat) (resp : Response)
    (w : ω) (nextResp : Response) (w2 : ω)
    (h : (resolveItems c resp.Output ⟨[], [], w⟩).toolOutputs ≠ [])
    (hn : c.ResponsesNew
        (followUpParams c resp (resolveItems c resp.Output ⟨[], [], w⟩).toolOutputs)
        (resolveItems c resp.Output ⟨[], [], w⟩).world = (.ok nextResp, w2)) :
    resolveToolCalls c (fuel + 1) resp w =
      match resolveToolCalls c fuel nextResp w2 with
      | none => none
      | some (next, w3) =>
        match next.err with
        | some err =>
          some (⟨"", (resolveItems c resp.Output ⟨[], [], w⟩).toolCalls, "", some err⟩, w3)
        | none =>
          some (⟨next.text,
            (resolveItems c resp.Output ⟨[], [], w⟩).toolCalls ++ next.toolCalls,
            next.lastResponseID, none⟩, w3) := by
  rw [resolveToolCalls]
  have hpos : (resolveItems c resp.Output ⟨[], [], w⟩).toolOutputs.length > 0 :=
    List.length_pos.mpr h
  simp only [hpos, if_true, hn]

/-- A response asks for a tool when one of its output items is a `function_call`. -/
theorem toolOutputs_ne_nil_iff {ω : Type} (c : Client ω) (resp : Response) (w : ω) :
    (resolveItems c resp.Output ⟨[], [], w⟩).toolOutputs ≠ [] ↔
      ∃ i ∈ resp.Output, i.Type_ = "function_call" := by
  have h := (resolveItems_calls c resp.Output ⟨[], [], w⟩).2
  simp only [List.length_nil, Nat.zero_add] at h
  rw [← List.length_pos, h, List.length_pos]
  constructor
  · intro hne
    obtain ⟨i, hi⟩ := List.exists_mem_of_ne_nil _ hne
    rw [List.mem_filter] at hi
    exact ⟨i, hi.1, by simpa using hi.2⟩
  · rintro ⟨i, hi, hfc⟩
    exact List.ne_nil_of_mem (List.mem_filter.mpr ⟨hi, by simpa using hfc⟩)

/-- More fuel does not change what `resolveToolCalls` returns. -/
theorem resolveToolCalls_fuel_mono {ω : Type} (c : Client ω) :
    ∀ (fuel : Nat) (resp : Response) (w : ω) (r : Resolved × ω),
      resolveToolCalls c fuel resp w = some r →
      ∀ k, resolveToolCalls c (fuel + k) resp w = some r := by
  intro fuel
  induction fuel with
  | zero => intro resp w r h; simp [resolveToolCalls] at h
  | succ fuel ih =>
    intro resp w r h k
    rw [Nat.add_right_comm]
    by_cases hne : (resolveItems c resp.Output ⟨[], [], w⟩).toolOutputs = []
    · rw [resolveToolCalls_done c fuel resp w hne] at h
      rw [resolveToolCalls_done c (fuel + k) resp w hne]
      exact h
    · cases hn : c.ResponsesNew
          (followUpParams c resp (resolveItems c resp.Output ⟨[], [], w⟩).toolOutputs)
          (resolveItems c resp.Output ⟨[], [], w⟩).world with
      | mk res w2 =>
        cases res with
        | error err =>
          rw [resolveToolCalls_newError c fuel resp w err w2 hne hn] at h
          rw [resolveToolCalls_newError c (fuel + k) resp w err w2 hne hn]
          exact h
        | ok nextResp =>
          rw [resolveToolCalls_recurse c fuel resp w nextResp w2 hne hn] at h
          rw [resolveToolCalls_recurse c (fuel + k) resp w nextResp w2 hne hn]
          cases hrec : resolveToolCalls c fuel nextResp w2 with
          | none => rw [hrec] at h; simp at h
          | some r2 =>
            rw [ih nextResp w2 r2 hrec k]
            rw [hrec] at h
            exact h

/-! ### The scripted backend: tools and debug output leave the script alone -/

theorem callTool_lift_script {φ : Type} (t : Tool φ) (name args : String) (w : Scripted φ) :
    (callTool t.lift name args w).2.script = w.script := by
  unfold callTool
  cases hu : t.lift.Unmarshal args with
  | error err => rfl
  | ok a =>
    simp only []
    cases hr : t.lift.Run a w with
    | mk res w1 =>
      have hw : w1.script = w.script := by
        have : w1 = (t.lift.Run a w).2 := by rw [hr]
        rw [this]; rfl
      cases res with
      | error err => exact hw
      | ok out =>
        simp only []
        cases t.lift.Marshal out with
        | error err => exact hw
        | ok js => exact hw

theorem CallFunction_lift_script {φ : Type} (ts : Tools φ) (name args : String)
    (w : Scripted φ) :
    (CallFunction ts.lift name args w).2.script = w.script := by
  unfold CallFunction
  split_ifs
  · exact callTool_lift_script _ _ _ _
  · exact callTool_lift_script _ _ _ _
  · exact callTool_lift_script _ _ _ _
  · exact callTool_lift_script _ _ _ _
  · exact callTool_lift_script _ _ _ _
  · rfl

theorem scripted_resolveItem_script {φ : Type} (ts : Tools φ) (st : LoopState (Scripted φ))
    (item : ResponseOutputItemUnion) :
    (resolveItem (scriptedClient ts) st item).world.script = st.world.script := by
  by_cases h : item.Type_ = "function_call"
  · have hs := CallFunction_lift_script ts item.Name item.Arguments
      ((scriptedClient ts).debugOutput ("function called: " ++ item.Name ++ "\n") st.world)
    have hd : ((scriptedClient ts).debugOutput ("function called: " ++ item.Name ++ "\n")
        st.world).script = st.world.script := rfl
    rw [hd] at hs
    cases hc : CallFunction (scriptedClient ts).tools item.Name item.Arguments
        ((scriptedClient ts).debugOutput ("function called: " ++ item.Name ++ "\n")
          st.world) with
    | mk r w1 =>
      have hw : w1.script = st.world.script := by
        have e : (CallFunction ts.lift item.Name item.Arguments
          ((scriptedClient ts).debugOutput ("function called: " ++ item.Name ++ "\n")
            st.world)).2 = w1 := by
          have := congrArg Prod.snd hc
          exact this
        rw [← e]; exact hs
      cases r with
      | error e => rw [resolveItem_error _ st item e w1 h hc]; exact hw
      | ok res => rw [resolveItem_ok _ st item res w1 h hc]; exact hw
  · rw [resolveItem_skip _ st item h]

theorem scripted_resolveItems_script {φ : Type} (ts : Tools φ)
    (items : List ResponseOutputItemUnion) (st : LoopState (Scripted φ)) :
    (resolveItems (scriptedClient ts) items st).world.script = st.world.script := by
  induction items generalizing st with
  | nil => rfl
  | cons x xs ih =>
    rw [resolveItems_cons, ih, scripted_resolveItem_script]

/-- What `Responses.New` of the scripted backend does when an answer is left. -/
theorem scripted_ResponsesNew_cons {φ : Type} (ts : Tools φ) (params : ResponseNewParams)
    (w : Scripted φ) (r : Except GoError Response) (rest : List (Except GoError Response))
    (h : w.script = r :: rest) :
    (scriptedClient ts).ResponsesNew params w =
      (r, { w with script := rest, requests := w.requests ++ [params] }) := by
  simp only [scriptedClient, h]

/-! ### Recursive tool resolution against a scripted backend -/

/-- C3: against a scripted backend whose successive responses `r1, ..., rk` (here
`r1 :: rs`, the backend holding `rs` as its coming answers) all ask for a tool except the
last, `resolveToolCalls(r1)` returns, without error, the output text and the id of `rk`,
and a tool-call list that names, level by level and in the order of the items inside each
response, exactly the `function_call` items of `r1, ..., rk`; any `fuel` of at least `k`
nested calls is enough. -/
theorem resolveToolCalls_scripted_chain {φ : Type} (ts : Tools φ) (rs : List Response) :
    ∀ (r1 : Response) (rest : List (Except GoError Response)) (w : Scripted φ) (fuel : Nat),
      (∀ r ∈ (r1 :: rs).dropLast, ∃ i ∈ r.Output, i.Type_ = "function_call") →
      (∀ i ∈ ((r1 :: rs).getLast (List.cons_ne_nil _ _)).Output,
        i.Type_ ≠ "function_call") →
      w.script = rs.map Except.ok ++ rest →
      rs.length + 1 ≤ fuel →
      ∃ calls w1,
        resolveToolCalls (scriptedClient ts) fuel r1 w =
          some (⟨(scriptedClient ts).OutputText ((r1 :: rs).getLast (List.cons_ne_nil _ _)),
            calls, ((r1 :: rs).getLast (List.cons_ne_nil _ _)).ID, none⟩, w1) ∧
        calls.map (fun tc => (tc.Name, tc.Arguments)) =
          (((r1 :: rs).map (fun r =>
            r.Output.filter (fun i => decide (i.Type_ = "function_call")))).flatten).map
              (fun i => (i.Name, i.Arguments)) ∧
        w1.script = rest := by
  induction rs with
  | nil =>
    intro r1 rest w fuel _ hlast hscript hfuel
    obtain ⟨f, rfl⟩ : ∃ f, fuel = f + 1 := ⟨fuel - 1, by simp at hfuel; omega⟩
    have hnil : (resolveItems (scriptedClient ts) r1.Output ⟨[], [], w⟩).toolOutputs = [] := by
      by_contra hne
      obtain ⟨i, hi, hfc⟩ := (toolOutputs_ne_nil_iff _ r1 w).mp hne
      exact hlast i hi hfc
    refine ⟨_, _, resolveToolCalls_done _ f r1 w hnil, ?_, ?_⟩
    · have h := (resolveItems_calls (scriptedClient ts) r1.Output ⟨[], [], w⟩).1
      simpa using h
    · rw [scripted_resolveItems_script]
      simpa using hscript
  | cons r2 rs ih =>
    intro r1 rest w fuel hcalls hlast hscript hfuel
    obtain ⟨f, rfl⟩ : ∃ f, fuel = f + 1 := ⟨fuel - 1, by simp at hfuel; omega⟩
    have hlastEq : (r1 :: r2 :: rs).getLast (List.cons_ne_nil _ _) =
        (r2 :: rs).getLast (List.cons_ne_nil _ _) := List.getLast_cons (List.cons_ne_nil _ _)
    have hdrop : (r1 :: r2 :: rs).dropLast = r1 :: (r2 :: rs).dropLast := rfl
    have hne : (resolveItems (scriptedClient ts) r1.Output ⟨[], [], w⟩).toolOutputs ≠ [] :=
      (toolOutputs_ne_nil_iff _ r1 w).mpr (hcalls r1 (by rw [hdrop]; exact List.mem_cons_self _ _))
    have hs : (resolveItems (scriptedClient ts) r1.Output ⟨[], [], w⟩).world.script =
        Except.ok r2 :: (rs.map Except.ok ++ rest) := by
      rw [scripted_resolveItems_script]
      simpa using hscript
    have hnew := scripted_ResponsesNew_cons ts
      (followUpParams (scriptedClient ts) r1
        (resolveItems (scriptedClient ts) r1.Output ⟨[], [], w⟩).toolOutputs) _ _ _ hs
    obtain ⟨calls, w1, hres, hnames, hrest⟩ := ih r2 rest _ f
      (fun r hr => hcalls r (by rw [hdrop]; exact List.mem_cons_of_mem _ hr))
      (by rw [← hlastEq]; exact hlast)
      (rfl : ({ (resolveItems (scriptedClient ts) r1.Output ⟨[], [], w⟩).world with
          script := rs.map Except.ok ++ rest
          requests := (resolveItems (scriptedClient ts) r1.Output ⟨[], [], w⟩).world.requests ++
            [followUpParams (scriptedClient ts) r1
              (resolveItems (scriptedClient ts) r1.Output ⟨[], [], w⟩).toolOutputs] } :
          Scripted φ).script = rs.map Except.ok ++ rest)
      (by simp at hfuel ⊢; omega)
    refine ⟨(resolveItems (scriptedClient ts) r1.Output ⟨[], [], w⟩).toolCalls ++ calls, w1,
      ?_, ?_, hrest⟩
    · rw [resolveToolCalls_recurse _ f r1 w r2 _ hne hnew, hres]
      simp only [hlastEq]
    · have h := (resolveItems_calls (scriptedClient ts) r1.Output ⟨[], [], w⟩).1
      simp only [List.map_nil, List.nil_append] at h
      rw [List.map_append, h, hnames]
      simp

/-- C3 at a concrete script: the backend asks for tool A, then for tool B, then gives the
final text; the calls returned are exactly A and B, in that order. -/
theorem resolveToolCalls_scripted_chain_witness :
    ∃ calls w1,
      resolveToolCalls (scriptedClient demoTools) 3 respA
          (demoWorld [.ok respB, .ok respDone]) =
        some (⟨"done", calls, "resp_3", none⟩, w1) ∧
      calls.map (fun tc => (tc.Name, tc.Arguments)) =
        [("read_file", "a.txt"), ("list_file", ".")] ∧
      w1.script = [] :=
  resolveToolCalls_scripted_chain demoTools [respB, respDone] respA []
    (demoWorld [.ok respB, .ok respDone]) 3 (by decide) (by decide) rfl (by decide)

/-- The same run evaluated: the records of A and B with the results the tools gave. -/
theorem resolveToolCalls_A_then_B :
    (resolveToolCalls (scriptedClient demoTools) 3 respA
        (demoWorld [.ok respB, .ok respDone])).map Prod.fst =
      some ⟨"done", [⟨"read_file", "a.txt", "AAA"⟩, ⟨"list_file", ".", "a.txt"⟩], "resp_3",
        none⟩ := by
  decide

/-! ### The three ways `CallFunction` fails -/

/-- Arguments that do not decode: the error of `json.Unmarshal`, wrapped. -/
theorem callTool_unmarshal_error {ω : Type} (t : Tool ω) (name args : String) (w : ω)
    (err : GoError) (h : t.Unmarshal args = .error err) :
    callTool t name args w =
      (.error (.wrap ("failed to unmarshal arguments for " ++ name ++ ": ") err), w) := by
  unfold callTool
  rw [h]

/-- A tool that fails: its error, as it is. -/
theorem callTool_run_error {ω : Type} (t : Tool ω) (name args : String) (w w1 : ω)
    (a : t.Params) (err : GoError) (h : t.Unmarshal args = .ok a)
    (hr : t.Run a w = (.error err, w1)) :
    callTool t name args w = (.error err, w1) := by
  unfold callTool
  rw [h]
  simp only [hr]

/-- A name outside the registry: an error naming it, and no tool is run. -/
theorem CallFunction_unknown {ω : Type} (ts : Tools ω) (name args : String) (w : ω)
    (h1 : name ≠ "read_file") (h2 : name ≠ "list_file") (h3 : name ≠ "grep_file")
    (h4 : name ≠ "write_file") (h5 : name ≠ "patch_file") :
    CallFunction ts name args w = (.error (.new ("unknown function call: " ++ name)), w) := by
  unfold CallFunction
  rw [if_neg (show ¬ name = ToolNameReadFile from h1),
    if_neg (show ¬ name = ToolNameListFile from h2),
    if_neg (show ¬ name = ToolNameGrepFile from h3),
    if_neg (show ¬ name = ToolNameWriteFile from h4),
    if_neg (show ¬ name = ToolNamePatchFile from h5)]

/-! ### A failing tool does not fail the exchange -/

/-- C2: (1) in the loop of `resolveToolCalls`, a `function_call` item for which
`tools.CallFunction` returns an error `e` makes the loop record a tool output and a
`ToolCall` with the name and arguments of the item and the result `"Error: "` followed by
the message of `e`, and the loop goes on with the items after it; (2) an exchange whose
first response invokes one tool, which fails, and whose follow-up response invokes none,
returns the follow-up text without error, having appended the user turn and then an
assistant turn whose only tool call carries that `"Error: ..."` result. -/
theorem failing_tool_is_recorded {ω σ : Type} (c : Client ω) (store : Store σ) :
    (∀ (pre post : List ResponseOutputItemUnion) (item : ResponseOutputItemUnion)
        (st : LoopState ω) (e : GoError) (w1 : ω),
      item.Type_ = "function_call" →
      CallFunction c.tools item.Name item.Arguments
        (c.debugOutput ("function called: " ++ item.Name ++ "\n")
          (resolveItems c pre st).world) = (.error e, w1) →
      resolveItems c (pre ++ item :: post) st =
        resolveItems c post
          ⟨(resolveItems c pre st).toolOutputs ++
              [.OfFunctionCallOutput item.CallID ("Error: " ++ e.Error)],
            (resolveItems c pre st).toolCalls ++
              [⟨item.Name, item.Arguments, "Error: " ++ e.Error⟩], w1⟩) ∧
    (∀ (fuel : Nat) (userInput : String) (sessionID : SessionID) (w w0 w1 w2 w3 : ω)
        (s s1 s2 : σ) (hist : Slice ConversationTurn) (pid : String) (r1 r2 : Response)
        (pre post : List ResponseOutputItemUnion) (item : ResponseOutputItemUnion)
        (e : GoError),
      store.List sessionID s = .ok hist →
      checkPreviousResponseID c (findPreviousResponseID hist) w = (pid, w0) →
      c.ResponsesNew (newParams c userInput pid) w0 = (.ok r1, w1) →
      r1.Output = pre ++ item :: post →
      item.Type_ = "function_call" →
      (∀ i ∈ pre ++ post, i.Type_ ≠ "function_call") →
      CallFunction c.tools item.Name item.Arguments
        (c.debugOutput ("function called: " ++ item.Name ++ "\n") w1) = (.error e, w2) →
      c.ResponsesNew
        (followUpParams c r1 [.OfFunctionCallOutput item.CallID ("Error: " ++ e.Error)]) w2 =
          (.ok r2, w3) →
      (∀ i ∈ r2.Output, i.Type_ ≠ "function_call") →
      store.Append sessionID (userTurn userInput) s = (none, s1) →
      store.Append sessionID
        (assistantTurn (c.OutputText r2) [⟨item.Name, item.Arguments, "Error: " ++ e.Error⟩]
          r2.ID) s1 = (none, s2) →
      GenerateResponse c store (fuel + 2) userInput sessionID w s =
        some ((c.OutputText r2, none), w3, s2)) := by
  constructor
  · intro pre post item st e w1 hfc hcall
    rw [resolveItems_append, resolveItems_cons,
      resolveItem_error c (resolveItems c pre st) item e w1 hfc hcall]
  · intro fuel userInput sessionID w w0 w1 w2 w3 s s1 s2 hist pid r1 r2 pre post item e
      hList hCheck hNew hOut hfc hothers hcall hNew2 hr2 hApp1 hApp2
    have hpre : ∀ i ∈ pre, i.Type_ ≠ "function_call" :=
      fun i hi => hothers i (List.mem_append_left _ hi)
    have hpost : ∀ i ∈ post, i.Type_ ≠ "function_call" :=
      fun i hi => hothers i (List.mem_append_right _ hi)
    have hloop : resolveItems c r1.Output ⟨[], [], w1⟩ =
        ⟨[.OfFunctionCallOutput item.CallID ("Error: " ++ e.Error)],
          [⟨item.Name, item.Arguments, "Error: " ++ e.Error⟩], w2⟩ := by
      rw [hOut, resolveItems_append, resolveItems_skip c pre _ hpre, resolveItems_cons,
        resolveItem_error c ⟨[], [], w1⟩ item e w2 hfc hcall, resolveItems_skip c post _ hpost]
      rfl
    have hloop2 : resolveItems c r2.Output ⟨[], [], w3⟩ = ⟨[], [], w3⟩ :=
      resolveItems_skip c _ _ hr2
    have hres2 : resolveToolCalls c (fuel + 1) r2 w3 =
        some (⟨c.OutputText r2, [], r2.ID, none⟩, w3) := by
      rw [resolveToolCalls_done c fuel r2 w3 (by rw [hloop2]), hloop2]
    have hres1 : resolveToolCalls c (fuel + 2) r1 w1 =
        some (⟨c.OutputText r2, [⟨item.Name, item.Arguments, "Error: " ++ e.Error⟩], r2.ID,
          none⟩, w3) := by
      rw [resolveToolCalls_recurse c (fuel + 1) r1 w1 r2 w3 (by rw [hloop]; simp)
        (by rw [hloop]; exact hNew2), hres2, hloop]
      rfl
    unfold GenerateResponse
    rw [hList]
    simp only [hCheck]
    unfold exchange
    rw [hNew]
    simp only [hres1]
    unfold persistTurns
    rw [hApp1]
    simp only [hApp2]

/-- C2 at a concrete exchange on an empty in-memory store: the only tool invoked fails,
the exchange succeeds, and the session then lists the user turn and the assistant turn
with the `"Error: ..."` result. -/
theorem failing_tool_is_recorded_witness :
    ∃ w3 s2,
      GenerateResponse (scriptedClient demoTools) InMemoryStore.asStore 2 "read it" "s"
          (demoWorld [.ok respFail, .ok respDone]) (⟨[]⟩, NewInMemoryStore) =
        some (("done", none), w3, s2) ∧
      InMemoryStore.asStore.List "s" s2 =
        .ok [userTurn "read it",
          assistantTurn "done"
            [⟨"read_file", "missing.txt",
              "Error: open missing.txt: no such file or directory"⟩] "resp_3"] := by
  let c := scriptedClient demoTools
  let item : ResponseOutputItemUnion :=
    ⟨"function_call", "call_1", "read_file", "missing.txt", []⟩
  let e : GoError := .new "open missing.txt: no such file or directory"
  let w := demoWorld [.ok respFail, .ok respDone]
  let w1 := (c.ResponsesNew (newParams c "read it" "") w).2
  let w2 := (CallFunction c.tools item.Name item.Arguments
    (c.debugOutput ("function called: " ++ item.Name ++ "\n") w1)).2
  let w3 := (c.ResponsesNew
    (followUpParams c respFail [.OfFunctionCallOutput item.CallID ("Error: " ++ e.Error)])
    w2).2
  let s : Heap × InMemoryStore := (⟨[]⟩, NewInMemoryStore)
  let s1 := (InMemoryStore.asStore.Append "s" (userTurn "read it") s).2
  let s2 := (InMemoryStore.asStore.Append "s"
    (assistantTurn "done" [⟨item.Name, item.Arguments, "Error: " ++ e.Error⟩] "resp_3") s1).2
  refine ⟨w3, s2, ?_, ?_⟩
  · exact (failing_tool_is_recorded c InMemoryStore.asStore).2
      0 "read it" "s" w w w1 w2 w3 s s1 s2 [] "" respFail respDone [] [] item e
      rfl rfl rfl rfl rfl (by decide) rfl rfl (by decide) rfl rfl
  · rfl

/-- The three ways `CallFunction` fails (arguments that do not decode, an unknown tool
name, a tool that fails), each recorded as a result text, with the loop going on to the
next item. -/
theorem resolveItems_error_kinds :
    (resolveItems (scriptedClient demoTools)
        [⟨"function_call", "call_1", "read_file", "", []⟩,
         ⟨"function_call", "call_2", "delete_file", "a.txt", []⟩,
         ⟨"function_call", "call_3", "read_file", "missing.txt", []⟩,
         ⟨"function_call", "call_4", "read_file", "a.txt", []⟩]
        ⟨[], [], demoWorld []⟩).toolCalls =
      [⟨"read_file", "",
          "Error: failed to unmarshal arguments for read_file: unexpected end of JSON input"⟩,
       ⟨"delete_file", "a.txt", "Error: unknown function call: delete_file"⟩,
       ⟨"read_file", "missing.txt", "Error: open missing.txt: no such file or directory"⟩,
       ⟨"read_file", "a.txt", "AAA"⟩] := by
  decide

/-! ### What `resolveToolCalls` returns, for any backend -/

/-- When `resolveToolCalls` returns without error, its text and id are those of a response
of the exchange that asks for no tool: the last one. -/
theorem resolveToolCalls_ok_last {ω : Type} (c : Client ω) :
    ∀ (fuel : Nat) (resp : Response) (w : ω) (r : Resolved) (w1 : ω),
      resolveToolCalls c fuel resp w = some (r, w1) → r.err = none →
      ∃ last wl, Relation.ReflTransGen (followUp c) (resp, w) (last, wl) ∧
        (∀ i ∈ last.Output, i.Type_ ≠ "function_call") ∧
        r.text = c.OutputText last ∧ r.lastResponseID = last.ID := by
  intro fuel
  induction fuel with
  | zero => intro resp w r w1 h; simp [resolveToolCalls] at h
  | succ fuel ih =>
    intro resp w r w1 h herr
    by_cases hne : (resolveItems c resp.Output ⟨[], [], w⟩).toolOutputs = []
    · rw [resolveToolCalls_done c fuel resp w hne] at h
      cases h
      refine ⟨resp, w, Relation.ReflTransGen.refl, ?_, rfl, rfl⟩
      intro i hi hfc
      exact (toolOutputs_ne_nil_iff c resp w).mpr ⟨i, hi, hfc⟩ hne
    · cases hn : c.ResponsesNew
          (followUpParams c resp (resolveItems c resp.Output ⟨[], [], w⟩).toolOutputs)
          (resolveItems c resp.Output ⟨[], [], w⟩).world with
      | mk res w2 =>
        cases res with
        | error err =>
          rw [resolveToolCalls_newError c fuel resp w err w2 hne hn] at h
          cases h
          simp at herr
        | ok nextResp =>
          rw [resolveToolCalls_recurse c fuel resp w nextResp w2 hne hn] at h
          cases hrec : resolveToolCalls c fuel nextResp w2 with
          | none => rw [hrec] at h; simp at h
          | some r2 =>
            obtain ⟨next, w3⟩ := r2
            rw [hrec] at h
            cases hnerr : next.err with
            | some e =>
              simp only [hnerr] at h
              cases h
              simp at herr
            | none =>
              simp only [hnerr] at h
              cases h
              obtain ⟨last, wl, hreach, hlast, htext, hid⟩ := ih nextResp w2 next _ hrec hnerr
              exact ⟨last, wl, Relation.ReflTransGen.head ⟨hne, hn⟩ hreach, hlast, htext, hid⟩

/-- When a follow-up request of an exchange fails, `resolveToolCalls` returns that error
wrapped, with empty text and id, whatever the depth at which it happens. -/
theorem resolveToolCalls_followUp_fails {ω : Type} (c : Client ω) (resp rj : Response)
    (w wj w2 : ω) (e0 : GoError)
    (hreach : Relation.ReflTransGen (followUp c) (resp, w) (rj, wj))
    (hne : (resolveItems c rj.Output ⟨[], [], wj⟩).toolOutputs ≠ [])
    (hfail : c.ResponsesNew
        (followUpParams c rj (resolveItems c rj.Output ⟨[], [], wj⟩).toolOutputs)
        (resolveItems c rj.Output ⟨[], [], wj⟩).world = (.error e0, w2)) :
    ∃ fuel0, ∀ fuel, fuel0 ≤ fuel → ∃ calls,
      resolveToolCalls c fuel resp w =
        some (⟨"", calls, "", some (.wrap "failed to call response API: " e0)⟩, w2) := by
  have key : ∀ a : Response × ω, Relation.ReflTransGen (followUp c) a (rj, wj) →
      ∃ fuel0, ∀ fuel, fuel0 ≤ fuel → ∃ calls,
        resolveToolCalls c fuel a.1 a.2 =
          some (⟨"", calls, "", some (.wrap "failed to call response API: " e0)⟩, w2) := by
    intro a ha
    induction ha using Relation.ReflTransGen.head_induction_on with
    | refl =>
      refine ⟨1, fun fuel hf => ?_⟩
      obtain ⟨f, rfl⟩ : ∃ f, fuel = f + 1 := ⟨fuel - 1, by omega⟩
      exact ⟨_, resolveToolCalls_newError c f rj wj e0 w2 hne hfail⟩
    | @head a b hstep _ ih =>
      obtain ⟨fuel1, h1⟩ := ih
      refine ⟨fuel1 + 1, fun fuel hf => ?_⟩
      obtain ⟨f, rfl⟩ : ∃ f, fuel = f + 1 := ⟨fuel - 1, by omega⟩
      obtain ⟨calls, hc⟩ := h1 f (by omega)
      refine ⟨(resolveItems c a.1.Output ⟨[], [], a.2⟩).toolCalls, ?_⟩
      rw [resolveToolCalls_recurse c f a.1 a.2 b.1 b.2 hstep.1 hstep.2, hc]
  exact key (resp, w) hreach

/-- An error returned by `resolveToolCalls` is the wrapped error of a follow-up request of
the exchange that failed. -/
theorem resolveToolCalls_err_cause {ω : Type} (c : Client ω) :
    ∀ (fuel : Nat) (resp : Response) (w : ω) (r : Resolved) (w1 : ω) (e : GoError),
      resolveToolCalls c fuel resp w = some (r, w1) → r.err = some e →
      ∃ rj wj e0, Relation.ReflTransGen (followUp c) (resp, w) (rj, wj) ∧
        c.ResponsesNew
          (followUpParams c rj (resolveItems c rj.Output ⟨[], [], wj⟩).toolOutputs)
          (resolveItems c rj.Output ⟨[], [], wj⟩).world = (.error e0, w1) ∧
        e = .wrap "failed to call response API: " e0 := by
  intro fuel
  induction fuel with
  | zero => intro resp w r w1 e h; simp [resolveToolCalls] at h
  | succ fuel ih =>
    intro resp w r w1 e h herr
    by_cases hne : (resolveItems c resp.Output ⟨[], [], w⟩).toolOutputs = []
    · rw [resolveToolCalls_done c fuel resp w hne] at h
      cases h
      simp at herr
    · cases hn : c.ResponsesNew
          (followUpParams c resp (resolveItems c resp.Output ⟨[], [], w⟩).toolOutputs)
          (resolveItems c resp.Output ⟨[], [], w⟩).world with
      | mk res w2 =>
        cases res with
        | error err =>
          rw [resolveToolCalls_newError c fuel resp w err w2 hne hn] at h
          cases h
          simp only [Option.some.injEq] at herr
          exact ⟨resp, w, err, Relation.ReflTransGen.refl, hn, herr.symm⟩
        | ok nextResp =>
          rw [resolveToolCalls_recurse c fuel resp w nextResp w2 hne hn] at h
          cases hrec : resolveToolCalls c fuel nextResp w2 with
          | none => rw [hrec] at h; simp at h
          | some r2 =>
            obtain ⟨next, w3⟩ := r2
            rw [hrec] at h
            cases hnerr : next.err with
            | some e1 =>
              simp only [hnerr] at h
              cases h
              simp only [Option.some.injEq] at herr
              obtain ⟨rj, wj, e0, hreach, hfail, he⟩ := ih nextResp w2 next _ e1 hrec hnerr
              exact ⟨rj, wj, e0, Relation.ReflTransGen.head ⟨hne, hn⟩ hreach, hfail,
                herr ▸ he⟩
            | none =>
              simp only [hnerr] at h
              cases h
              simp at herr

/-! ### `GenerateResponse`: backend failures, the probe, and what is persisted -/

theorem GenerateResponse_eq_exchange {ω σ : Type} (c : Client ω) (store : Store σ)
    (fuel : Nat) (userInput : String) (sessionID : SessionID) (w w0 : ω) (s : σ)
    (hist : Slice ConversationTurn) (pid : String)
    (hList : store.List sessionID s = .ok hist)
    (hCheck : checkPreviousResponseID c (findPreviousResponseID hist) w = (pid, w0)) :
    GenerateResponse c store fuel userInput sessionID w s =
      exchange c store fuel userInput sessionID pid w0 s := by
  unfold GenerateResponse
  rw [hList]
  simp only [hCheck]

/-- C4: when the history was listed and the handle checked, (1) a failure `e0` of the first
model request makes `GenerateResponse` return the error wrapping `e0`, and (2) so does a
failure `e0` of any follow-up request of the exchange, at whatever depth (given fuel for
that depth); in both cases the store is in the state it was in before the call: no
`Append` was made. -/
theorem backend_failure_persists_nothing {ω σ : Type} (c : Client ω) (store : Store σ)
    (userInput : String) (sessionID : SessionID) (w w0 : ω) (s : σ)
    (hist : Slice ConversationTurn) (pid : String)
    (hList : store.List sessionID s = .ok hist)
    (hCheck : checkPreviousResponseID c (findPreviousResponseID hist) w = (pid, w0)) :
    (∀ (e0 : GoError) (w1 : ω),
      c.ResponsesNew (newParams c userInput pid) w0 = (.error e0, w1) →
      ∀ fuel, GenerateResponse c store fuel userInput sessionID w s =
        some (("", some (.wrap "failed to call response API: " e0)), w1, s)) ∧
    (∀ (r1 rj : Response) (w1 wj w2 : ω) (e0 : GoError),
      c.ResponsesNew (newParams c userInput pid) w0 = (.ok r1, w1) →
      Relation.ReflTransGen (followUp c) (r1, w1) (rj, wj) →
      (resolveItems c rj.Output ⟨[], [], wj⟩).toolOutputs ≠ [] →
      c.ResponsesNew
        (followUpParams c rj (resolveItems c rj.Output ⟨[], [], wj⟩).toolOutputs)
        (resolveItems c rj.Output ⟨[], [], wj⟩).world = (.error e0, w2) →
      ∃ fuel0, ∀ fuel, fuel0 ≤ fuel →
        GenerateResponse c store fuel userInput sessionID w s =
          some (("", some (.wrap "failed to call response API: " e0)), w2, s)) ∧
    (∀ e0, (GoError.wrap "failed to call response API: " e0).Unwrap = some e0) := by
  refine ⟨?_, ?_, fun _ => rfl⟩
  · intro e0 w1 hNew fuel
    rw [GenerateResponse_eq_exchange c store fuel userInput sessionID w w0 s hist pid hList
      hCheck]
    unfold exchange
    rw [hNew]
  · intro r1 rj w1 wj w2 e0 hNew hreach hne hfail
    obtain ⟨fuel0, h0⟩ := resolveToolCalls_followUp_fails c r1 rj w1 wj w2 e0 hreach hne hfail
    refine ⟨fuel0, fun fuel hf => ?_⟩
    obtain ⟨calls, hc⟩ := h0 fuel hf
    rw [GenerateResponse_eq_exchange c store fuel userInput sessionID w w0 s hist pid hList
      hCheck]
    unfold exchange
    rw [hNew]
    simp only [hc]

/-- C5: when the handle found in the history is not empty and `Responses.Get` returns an
error for it, `GenerateResponse` goes on as an exchange that has no handle: its first
request has no `PreviousResponseID`, and when that request, the resolution of the tools and
the two appends succeed, the call returns the final text and no error. -/
theorem failed_probe_discards_handle {ω σ : Type} (c : Client ω) (store : Store σ)
    (fuel : Nat) (userInput : String) (sessionID : SessionID) (w w0 : ω) (s : σ)
    (hist : Slice ConversationTurn) (e : GoError)
    (hList : store.List sessionID s = .ok hist)
    (hFound : findPreviousResponseID hist ≠ "")
    (hProbe : c.ResponsesGet (findPreviousResponseID hist) w = (some e, w0)) :
    GenerateResponse c store fuel userInput sessionID w s =
      exchange c store fuel userInput sessionID "" w0 s ∧
    (newParams c userInput "").PreviousResponseID = none ∧
    (∀ (resp : Response) (w1 w2 : ω) (r : Resolved) (s1 s2 : σ),
      c.ResponsesNew (newParams c userInput "") w0 = (.ok resp, w1) →
      resolveToolCalls c fuel resp w1 = some (r, w2) → r.err = none →
      store.Append sessionID (userTurn userInput) s = (none, s1) →
      store.Append sessionID (assistantTurn r.text r.toolCalls r.lastResponseID) s1 =
        (none, s2) →
      GenerateResponse c store fuel userInput sessionID w s =
        some ((r.text, none), w2, s2)) := by
  have hCheck : checkPreviousResponseID c (findPreviousResponseID hist) w = ("", w0) := by
    unfold checkPreviousResponseID
    rw [if_pos hFound, hProbe]
  have hEq := GenerateResponse_eq_exchange c store fuel userInput sessionID w w0 s hist ""
    hList hCheck
  refine ⟨hEq, rfl, ?_⟩
  intro resp w1 w2 r s1 s2 hNew hRes hErr hApp1 hApp2
  rw [hEq]
  unfold exchange
  rw [hNew]
  simp only [hRes, hErr]
  unfold persistTurns
  rw [hApp1]
  simp only [hApp2]

/-- C7: a call of `GenerateResponse` that returns `text` without error has made exactly two
appends to the session, the second on the state the first left and giving the final state:
first the turn with role `user`, the input as content, no tool calls and no metadata, then
the turn with role `assistant`, `text` as content, the tool calls `resolveToolCalls`
returned, and the metadata `previous_response_id` set to the id of the last response of the
exchange, which is the one without tool invocation and the one whose text is `text`. -/
theorem GenerateResponse_success_appends {ω σ : Type} (c : Client ω) (store : Store σ)
    (fuel : Nat) (userInput : String) (sessionID : SessionID) (w w1 : ω) (s s2 : σ)
    (text : String)
    (h : GenerateResponse c store fuel userInput sessionID w s = some ((text, none), w1, s2)) :
    ∃ (hist : Slice ConversationTurn) (first last : Response) (wf wl : ω)
        (calls : Slice ToolCall) (s1 : σ),
      store.List sessionID s = .ok hist ∧
      c.ResponsesNew
        (newParams c userInput (checkPreviousResponseID c (findPreviousResponseID hist) w).1)
        (checkPreviousResponseID c (findPreviousResponseID hist) w).2 = (.ok first, wf) ∧
      resolveToolCalls c fuel first wf = some (⟨text, calls, last.ID, none⟩, w1) ∧
      Relation.ReflTransGen (followUp c) (first, wf) (last, wl) ∧
      (∀ i ∈ last.Output, i.Type_ ≠ "function_call") ∧
      text = c.OutputText last ∧
      store.Append sessionID ⟨"user", userInput, [], []⟩ s = (none, s1) ∧
      store.Append sessionID
        ⟨"assistant", text, calls, [("previous_response_id", last.ID)]⟩ s1 = (none, s2) := by
  unfold GenerateResponse at h
  cases hList : store.List sessionID s with
  | error err => rw [hList] at h; simp at h
  | ok hist =>
    rw [hList] at h
    simp only [] at h
    unfold exchange at h
    cases hNew : c.ResponsesNew
        (newParams c userInput (checkPreviousResponseID c (findPreviousResponseID hist) w).1)
        (checkPreviousResponseID c (findPreviousResponseID hist) w).2 with
    | mk res wf =>
      rw [hNew] at h
      cases res with
      | error err => simp at h
      | ok first =>
        simp only [] at h
        cases hRes : resolveToolCalls c fuel first wf with
        | none => rw [hRes] at h; simp at h
        | some rw2 =>
          obtain ⟨r, w2⟩ := rw2
          rw [hRes] at h
          simp only [] at h
          cases hErr : r.err with
          | some err => rw [hErr] at h; simp at h
          | none =>
            rw [hErr] at h
            simp only [] at h
            unfold persistTurns at h
            cases hApp1 : store.Append sessionID (userTurn userInput) s with
            | mk e1 s1 =>
              rw [hApp1] at h
              cases e1 with
              | some err => simp at h
              | none =>
                simp only [] at h
                cases hApp2 : store.Append sessionID
                    (assistantTurn r.text r.toolCalls r.lastResponseID) s1 with
                | mk e2 s2a =>
                  rw [hApp2] at h
                  cases e2 with
                  | some err => simp at h
                  | none =>
                    simp only [Option.some.injEq, Prod.mk.injEq, and_true] at h
                    obtain ⟨htext, hw, hs⟩ := h
                    subst hw hs htext
                    obtain ⟨last, wl, hreach, hlast, hltext, hid⟩ :=
                      resolveToolCalls_ok_last c fuel first wf r w2 hRes hErr
                    refine ⟨hist, first, last, wf, wl, r.toolCalls, s1, rfl, hNew, ?_, hreach,
                      hlast, hltext, hApp1, ?_⟩
                    · rw [hRes, ← hid]
                      cases r
                      simp only [] at hErr
                      subst hErr
                      rfl
                    · rw [← hid]
                      exact hApp2

/-- C4 at concrete scripts: the first request fails, and the follow-up request after tool A
fails; each time the error wraps the backend error and the store is the initial one. -/
theorem backend_failure_persists_nothing_witness :
    (∃ w1, ∀ fuel,
      GenerateResponse (scriptedClient demoTools) InMemoryStore.asStore fuel "go" "s"
          (demoWorld [.error err503]) demoHistory =
        some (("", some (.wrap "failed to call response API: " err503)), w1, demoHistory)) ∧
    (∃ w2 fuel0, ∀ fuel, fuel0 ≤ fuel →
      GenerateResponse (scriptedClient demoTools) InMemoryStore.asStore fuel "go" "s"
          (demoWorld [.ok respA, .error err503]) demoHistory =
        some (("", some (.wrap "failed to call response API: " err503)), w2, demoHistory)) := by
  have hist : InMemoryStore.asStore.List "s" demoHistory =
      .ok [userTurn "q", assistantTurn "a" [] "resp_old"] := rfl
  constructor
  · exact ⟨_, (backend_failure_persists_nothing (scriptedClient demoTools)
      InMemoryStore.asStore "go" "s" (demoWorld [.error err503]) _ demoHistory _ "" hist
      rfl).1 err503 _ rfl⟩
  · exact ⟨_, (backend_failure_persists_nothing (scriptedClient demoTools)
      InMemoryStore.asStore "go" "s" (demoWorld [.ok respA, .error err503]) _ demoHistory _ ""
      hist rfl).2.1 respA respA _ _ _ err503 rfl Relation.ReflTransGen.refl (by decide) rfl⟩

/-- C5 at a concrete exchange: the history carries the handle `resp_old`, which the backend
does not know; the exchange succeeds and the one request sent has no previous id. -/
theorem failed_probe_discards_handle_witness :
    ∃ w2 s2,
      GenerateResponse (scriptedClient demoTools) InMemoryStore.asStore 1 "next" "s"
          (demoWorld [.ok respDone]) demoHistory = some (("done", none), w2, s2) ∧
      w2.requests.map (fun p => p.PreviousResponseID) = [none] ∧
      InMemoryStore.asStore.List "s" s2 =
        .ok [userTurn "q", assistantTurn "a" [] "resp_old", userTurn "next",
          assistantTurn "done" [] "resp_3"] := by
  let c := scriptedClient demoTools
  let w := demoWorld [.ok respDone]
  let w1 := (c.ResponsesNew (newParams c "next" "") w).2
  let r : Resolved := ⟨"done", [], "resp_3", none⟩
  let s1 := (InMemoryStore.asStore.Append "s" (userTurn "next") demoHistory).2
  let s2 := (InMemoryStore.asStore.Append "s" (assistantTurn "done" [] "resp_3") s1).2
  refine ⟨w1, s2, ?_, rfl, rfl⟩
  exact (failed_probe_discards_handle c InMemoryStore.asStore 1 "next" "s" w w demoHistory
    [userTurn "q", assistantTurn "a" [] "resp_old"] (.new "404 Not Found") rfl (by decide)
    rfl).2.2 respDone w1 w1 r s1 s2 rfl rfl rfl rfl rfl

/-- C7 at a concrete exchange (tool A, then tool B, then the final text) on an empty
in-memory store. -/
theorem GenerateResponse_success_appends_witness :
    ∃ (w1 : Scripted (List (String × String))) (s1 s2 : Heap × InMemoryStore)
        (last : Response),
      GenerateResponse (scriptedClient demoTools) InMemoryStore.asStore 3 "go" "s"
          (demoWorld [.ok respA, .ok respB, .ok respDone]) (⟨[]⟩, NewInMemoryStore) =
        some (("done", none), w1, s2) ∧
      (∀ i ∈ last.Output, i.Type_ ≠ "function_call") ∧
      "done" = (scriptedClient demoTools).OutputText last ∧
      InMemoryStore.asStore.Append "s" ⟨"user", "go", [], []⟩ (⟨[]⟩, NewInMemoryStore) =
        (none, s1) ∧
      (∃ calls, InMemoryStore.asStore.Append "s"
        ⟨"assistant", "done", calls, [("previous_response_id", last.ID)]⟩ s1 = (none, s2)) := by
  obtain ⟨w1, s2, h⟩ : ∃ w1 s2,
      GenerateResponse (scriptedClient demoTools) InMemoryStore.asStore 3 "go" "s"
          (demoWorld [.ok respA, .ok respB, .ok respDone]) (⟨[]⟩, NewInMemoryStore) =
        some (("done", none), w1, s2) := ⟨_, _, rfl⟩
  obtain ⟨_, _, last, _, _, calls, s1, _, _, _, _, hlast, htext, hApp1, hApp2⟩ :=
    GenerateResponse_success_appends (scriptedClient demoTools) InMemoryStore.asStore 3 "go"
      "s" _ w1 _ s2 "done" h
  exact ⟨w1, s1, s2, last, h, hlast, htext, hApp1, calls, hApp2⟩

/-! ### The in-memory store keeps a log per session -/

theorem asStore_List_eq_log (S : SessionID) (hs : Heap × InMemoryStore) :
    InMemoryStore.asStore.List S hs = .ok (InMemoryStore.log S hs) := by
  obtain ⟨h, s⟩ := hs
  simp only [InMemoryStore.asStore, InMemoryStore.List, InMemoryStore.log, copySlice]
  cases hd : s.data S with
  | none => simp
  | some turns => simp

theorem asStore_Append_fst (S : SessionID) (t : ConversationTurn) (hs : Heap × InMemoryStore) :
    (InMemoryStore.asStore.Append S t hs).1 = none := rfl

theorem asStore_Append_data (S k : SessionID) (t : ConversationTurn)
    (hs : Heap × InMemoryStore) :
    (InMemoryStore.asStore.Append S t hs).2.2.data k =
      if k = S then some ((hs.2.data S).getD [] ++ [hs.1.cells.length]) else hs.2.data k := rfl

theorem asStore_Append_cells (S : SessionID) (t : ConversationTurn)
    (hs : Heap × InMemoryStore) :
    (InMemoryStore.asStore.Append S t hs).2.1.cells = hs.1.cells ++ [t] := rfl

theorem asStore_keepsLog (S : SessionID) :
    KeepsLog InMemoryStore.asStore S (InMemoryStore.valid S) (InMemoryStore.log S) where
  list_eq := by
    intro s turns _ h
    rw [asStore_List_eq_log] at h
    cases h
    rfl
  append_good := by
    intro S1 t hs hgood p hp
    rw [asStore_Append_data] at hp
    rw [asStore_Append_cells, List.length_append, List.length_singleton]
    by_cases hS : S = S1
    · subst hS
      simp only [if_true, Option.getD_some, List.mem_append, List.mem_singleton] at hp
      rcases hp with hp | hp
      · exact Nat.lt_succ_of_lt (hgood p hp)
      · rw [hp]; exact Nat.lt_succ_self _
    · rw [if_neg hS] at hp
      exact Nat.lt_succ_of_lt (hgood p hp)
  append_ok := by
    intro t hs hgood _
    unfold InMemoryStore.log
    rw [asStore_Append_data, if_pos rfl, Option.getD_some, List.map_append]
    congr 1
    · apply List.map_congr_left
      intro p hp
      simp only [Heap.deref, asStore_Append_cells]
      rw [List.getElem?_append_left (hgood p hp)]
    · simp [Heap.deref, asStore_Append_cells]
  append_err := by
    intro t hs e _ h
    rw [asStore_Append_fst] at h
    cases h
  append_other := by
    intro S1 t hs hgood hne
    unfold InMemoryStore.log
    rw [asStore_Append_data, if_neg (Ne.symm hne)]
    apply List.map_congr_left
    intro p hp
    simp only [Heap.deref, asStore_Append_cells]
    rw [List.getElem?_append_left (hgood p hp)]

theorem asStore_valid_of_List_nil (S : SessionID) (hs : Heap × InMemoryStore)
    (h : InMemoryStore.asStore.List S hs = .ok []) :
    InMemoryStore.valid S hs ∧ InMemoryStore.log S hs = [] := by
  rw [asStore_List_eq_log] at h
  have hlog : InMemoryStore.log S hs = [] := Except.ok.inj h
  refine ⟨?_, hlog⟩
  intro p hp
  unfold InMemoryStore.log at hlog
  rw [List.map_eq_nil_iff] at hlog
  rw [hlog] at hp
  cases hp

theorem faultyStore_keepsLog (S : SessionID) :
    KeepsLog faultyStore S (fun s => InMemoryStore.valid S s.2)
      (fun s => InMemoryStore.log S s.2) where
  list_eq := by
    intro s turns hgood h
    exact (asStore_keepsLog S).list_eq s.2 turns hgood h
  append_good := by
    intro S1 t s hgood
    obtain ⟨faults, hs⟩ := s
    cases faults with
    | nil => exact (asStore_keepsLog S).append_good S1 t hs hgood
    | cons b faults =>
      cases b with
      | true => exact hgood
      | false => exact (asStore_keepsLog S).append_good S1 t hs hgood
  append_ok := by
    intro t s hgood hok
    obtain ⟨faults, hs⟩ := s
    cases faults with
    | nil => exact (asStore_keepsLog S).append_ok t hs hgood rfl
    | cons b faults =>
      cases b with
      | true => cases hok
      | false => exact (asStore_keepsLog S).append_ok t hs hgood rfl
  append_err := by
    intro t s e hgood herr
    obtain ⟨faults, hs⟩ := s
    cases faults with
    | nil => cases herr
    | cons b faults =>
      cases b with
      | true => rfl
      | false => cases herr
  append_other := by
    intro S1 t s hgood hne
    obtain ⟨faults, hs⟩ := s
    cases faults with
    | nil => exact (asStore_keepsLog S).append_other S1 t hs hgood hne
    | cons b faults =>
      cases b with
      | true => rfl
      | false => exact (asStore_keepsLog S).append_other S1 t hs hgood hne

/-! ### What a call of `GenerateResponse` does to the log of a session -/

/-- A call that returns either left the store alone and returned an error, or ended with
the two appends of `persistTurns`. -/
theorem GenerateResponse_store {ω σ : Type} (c : Client ω) (store : Store σ) (fuel : Nat)
    (userInput : String) (sessionID : SessionID) (w w1 : ω) (s s1 : σ)
    (out : String × Option GoError)
    (h : GenerateResponse c store fuel userInput sessionID w s = some (out, w1, s1)) :
    (s1 = s ∧ out.2 ≠ none) ∨
    ∃ text calls id, (out, s1) = persistTurns store userInput sessionID text calls id s := by
  unfold GenerateResponse at h
  cases hList : store.List sessionID s with
  | error err =>
    rw [hList] at h
    simp only [Option.some.injEq, Prod.mk.injEq] at h
    obtain ⟨ho, _, hs⟩ := h
    exact Or.inl ⟨hs.symm, by rw [← ho]; simp⟩
  | ok hist =>
    rw [hList] at h
    simp only [] at h
    unfold exchange at h
    cases hNew : c.ResponsesNew
        (newParams c userInput (checkPreviousResponseID c (findPreviousResponseID hist) w).1)
        (checkPreviousResponseID c (findPreviousResponseID hist) w).2 with
    | mk res wf =>
      rw [hNew] at h
      cases res with
      | error err =>
        simp only [Option.some.injEq, Prod.mk.injEq] at h
        obtain ⟨ho, _, hs⟩ := h
        exact Or.inl ⟨hs.symm, by rw [← ho]; simp⟩
      | ok first =>
        simp only [] at h
        cases hRes : resolveToolCalls c fuel first wf with
        | none => rw [hRes] at h; simp at h
        | some rw2 =>
          obtain ⟨r, w2⟩ := rw2
          rw [hRes] at h
          simp only [] at h
          cases hErr : r.err with
          | some err =>
            rw [hErr] at h
            simp only [Option.some.injEq, Prod.mk.injEq] at h
            obtain ⟨ho, _, hs⟩ := h
            exact Or.inl ⟨hs.symm, by rw [← ho]; simp⟩
          | none =>
            rw [hErr] at h
            simp only [Option.some.injEq, Prod.mk.injEq] at h
            obtain ⟨ho, _, hs⟩ := h
            exact Or.inr ⟨r.text, r.toolCalls, r.lastResponseID, by rw [← ho, ← hs]⟩

/-- The three ways the two appends can end, seen on the log of the session `S`. -/
theorem persistTurns_log {σ : Type} (store : Store σ) (S : SessionID) (good : σ → Prop)
    (log : σ → List ConversationTurn) (K : KeepsLog store S good log)
    (userInput : String) (sessionID : SessionID) (text : String) (calls : Slice ToolCall)
    (id : String) (s : σ) (hgood : good s) :
    good (persistTurns store userInput sessionID text calls id s).2 ∧
    (sessionID ≠ S → log (persistTurns store userInput sessionID text calls id s).2 = log s) ∧
    (sessionID = S →
      ((persistTurns store userInput sessionID text calls id s).1 = (text, none) ∧
        log (persistTurns store userInput sessionID text calls id s).2 =
          log s ++ [userTurn userInput, assistantTurn text calls id]) ∨
      ((persistTurns store userInput sessionID text calls id s).1.2 ≠ none ∧
        log (persistTurns store userInput sessionID text calls id s).2 = log s) ∨
      ((∃ e, (persistTurns store userInput sessionID text calls id s).1.2 =
          some (.wrap "failed to append assistant turn: " e)) ∧
        log (persistTurns store userInput sessionID text calls id s).2 =
          log s ++ [userTurn userInput])) := by
  unfold persistTurns
  have g1 := K.append_good sessionID (userTurn userInput) s hgood
  cases hApp1 : store.Append sessionID (userTurn userInput) s with
  | mk e1 s1 =>
    rw [hApp1] at g1
    have g2 := K.append_good sessionID (assistantTurn text calls id) s1 g1
    cases e1 with
    | some err =>
      refine ⟨g1, ?_, ?_⟩
      · intro hne
        have := K.append_other sessionID (userTurn userInput) s hgood hne
        rw [hApp1] at this
        exact this
      · intro heq
        subst heq
        have := K.append_err (userTurn userInput) s err hgood (by rw [hApp1])
        rw [hApp1] at this
        exact Or.inr (Or.inl ⟨by simp, this⟩)
    | none =>
      simp only []
      cases hApp2 : store.Append sessionID (assistantTurn text calls id) s1 with
      | mk e2 s2 =>
        rw [hApp2] at g2
        have hother : sessionID ≠ S → log s2 = log s := by
          intro hne
          have h1 := K.append_other sessionID (userTurn userInput) s hgood hne
          have h2 := K.append_other sessionID (assistantTurn text calls id) s1 g1 hne
          rw [hApp1] at h1
          rw [hApp2] at h2
          exact h2.trans h1
        cases e2 with
        | some err =>
          refine ⟨g2, hother, ?_⟩
          intro heq
          subst heq
          have h1 := K.append_ok (userTurn userInput) s hgood (by rw [hApp1])
          have h2 := K.append_err (assistantTurn text calls id) s1 err g1 (by rw [hApp2])
          rw [hApp1] at h1
          rw [hApp2] at h2
          exact Or.inr (Or.inr ⟨⟨err, rfl⟩, by rw [h2, h1]⟩)
        | none =>
          refine ⟨g2, hother, ?_⟩
          intro heq
          subst heq
          have h1 := K.append_ok (userTurn userInput) s hgood (by rw [hApp1])
          have h2 := K.append_ok (assistantTurn text calls id) s1 g1 (by rw [hApp2])
          rw [hApp1] at h1
          rw [hApp2] at h2
          exact Or.inl ⟨rfl, by rw [h2, h1]; simp⟩

/-- The effect of one call of `GenerateResponse` on the log of the session `S`. -/
theorem GenerateResponse_log {ω σ : Type} (c : Client ω) (store : Store σ) (S : SessionID)
    (good : σ → Prop) (log : σ → List ConversationTurn) (K : KeepsLog store S good log)
    (fuel : Nat) (userInput : String) (sessionID : SessionID) (w w1 : ω) (s s1 : σ)
    (out : String × Option GoError) (hgood : good s)
    (h : GenerateResponse c store fuel userInput sessionID w s = some (out, w1, s1)) :
    good s1 ∧
    (sessionID ≠ S → log s1 = log s) ∧
    (sessionID = S →
      (out.2 = none ∧ ∃ a, a.Role = "assistant" ∧ a.Content = out.1 ∧
        log s1 = log s ++ [userTurn userInput, a]) ∨
      (out.2 ≠ none ∧ log s1 = log s) ∨
      ((∃ e, out.2 = some (.wrap "failed to append assistant turn: " e)) ∧
        log s1 = log s ++ [userTurn userInput])) := by
  rcases GenerateResponse_store c store fuel userInput sessionID w w1 s s1 out h with
    ⟨hs, ho⟩ | ⟨text, calls, id, hp⟩
  · subst hs
    exact ⟨hgood, fun _ => rfl, fun _ => Or.inr (Or.inl ⟨ho, rfl⟩)⟩
  · have hout : out = (persistTurns store userInput sessionID text calls id s).1 :=
      congrArg Prod.fst hp
    have hst : s1 = (persistTurns store userInput sessionID text calls id s).2 :=
      congrArg Prod.snd hp
    obtain ⟨g, hother, hsame⟩ :=
      persistTurns_log store S good log K userInput sessionID text calls id s hgood
    rw [hout, hst]
    refine ⟨g, hother, fun heq => ?_⟩
    rcases hsame heq with ⟨h1, h2⟩ | h2 | h2
    · refine Or.inl ⟨by rw [h1], assistantTurn text calls id, rfl, by rw [h1]; rfl, h2⟩
    · exact Or.inr (Or.inl h2)
    · exact Or.inr (Or.inr h2)

/-! ### Sequences of exchanges -/

theorem interleave_length (inputs : List String) :
    ∀ as : List ConversationTurn, as.length = inputs.length →
      (interleave inputs as).length = 2 * inputs.length := by
  induction inputs with
  | nil => intro as _; cases as <;> rfl
  | cons i is ih =>
    intro as h
    cases as with
    | nil => cases h
    | cons a as =>
      simp only [interleave, List.length_cons] at h ⊢
      rw [ih as (by omega)]
      omega

theorem interleave_getElem (inputs : List String) :
    ∀ (as : List ConversationTurn), as.length = inputs.length → ∀ k,
      (interleave inputs as)[2 * k]? =
          (inputs[k]?).map (fun input => (⟨"user", input, [], []⟩ : ConversationTurn)) ∧
      (interleave inputs as)[2 * k + 1]? = as[k]? := by
  induction inputs with
  | nil =>
    intro as h k
    cases as with
    | nil => simp [interleave]
    | cons a as => cases h
  | cons i is ih =>
    intro as h k
    cases as with
    | nil => cases h
    | cons a as =>
      cases k with
      | zero => simp [interleave]
      | succ k =>
        have hk := ih as (by simpa using h) k
        have e1 : 2 * (k + 1) = (2 * k + 1) + 1 := by omega
        rw [e1]
        simp only [interleave, List.getElem?_cons_succ]
        exact hk

/-- Successful calls on one session add, for each input in turn, its user turn and an
assistant turn at the end of the log of that session. -/
theorem runExchanges_success_log {ω σ : Type} (c : Client ω) (store : Store σ)
    (S : SessionID) (good : σ → Prop) (log : σ → List ConversationTurn)
    (K : KeepsLog store S good log) (calls : List (Nat × String)) :
    ∀ (w w1 : ω) (s s1 : σ) (outs : List (String × Option GoError)),
      good s →
      runExchanges c store (calls.map (fun p => ⟨p.1, S, p.2⟩)) w s = some (outs, w1, s1) →
      (∀ o ∈ outs, o.2 = none) →
      good s1 ∧ ∃ as : List ConversationTurn, as.length = calls.length ∧
        (∀ a ∈ as, a.Role = "assistant") ∧
        log s1 = log s ++ interleave (calls.map Prod.snd) as := by
  induction calls with
  | nil =>
    intro w w1 s s1 outs hgood hrun _
    simp only [List.map_nil, runExchanges, Option.some.injEq, Prod.mk.injEq] at hrun
    obtain ⟨_, _, hs⟩ := hrun
    subst hs
    exact ⟨hgood, [], rfl, by simp, by simp [interleave]⟩
  | cons call calls ih =>
    intro w w1 s s1 outs hgood hrun hok
    simp only [List.map_cons, runExchanges] at hrun
    cases hg : GenerateResponse c store call.1 call.2 S w s with
    | none => rw [hg] at hrun; simp at hrun
    | some r =>
      obtain ⟨out, w2, s2⟩ := r
      rw [hg] at hrun
      simp only [] at hrun
      cases hrest : runExchanges c store (calls.map (fun p => ⟨p.1, S, p.2⟩)) w2 s2 with
      | none => rw [hrest] at hrun; simp at hrun
      | some r2 =>
        obtain ⟨outs2, w3, s3⟩ := r2
        rw [hrest] at hrun
        simp only [Option.some.injEq, Prod.mk.injEq] at hrun
        obtain ⟨houts, _, hs⟩ := hrun
        subst hs houts
        obtain ⟨g2, _, hsame⟩ := GenerateResponse_log c store S good log K call.1 call.2 S
          w w2 s s2 out hgood hg
        have hout : out.2 = none := hok out (List.mem_cons_self _ _)
        obtain ⟨g3, as, hlen, hroles, hlog⟩ := ih w2 w3 s2 s3 outs2 g2 hrest
          (fun o ho => hok o (List.mem_cons_of_mem _ ho))
        rcases hsame rfl with ⟨_, a, ha, _, hl⟩ | ⟨hne, _⟩ | ⟨⟨e, he⟩, _⟩
        · refine ⟨g3, a :: as, by simp [hlen], ?_, ?_⟩
          · intro b hb
            rcases List.mem_cons.mp hb with hb | hb
            · rw [hb]; exact ha
            · exact hroles b hb
          · rw [hlog, hl]
            simp [interleave, userTurn]
        · exact absurd hout hne
        · rw [hout] at he
          cases he

/-- C1: for every client (any backend, any tools) and every in-memory store in which `S`
lists as empty, after `N` calls of `GenerateResponse` on `S` that all returned without
error, `List(S)` returns `2N` turns; the turn at position `2k` is the user turn of the
`k`-th input (role `user`, that input as content) and the turn at position `2k + 1` has role
`assistant`. -/
theorem successful_exchanges_alternate {ω : Type} (c : Client ω) (S : SessionID)
    (calls : List (Nat × String)) (w w1 : ω) (hs hs1 : Heap × InMemoryStore)
    (outs : List (String × Option GoError))
    (hEmpty : InMemoryStore.asStore.List S hs = .ok [])
    (hRun : runExchanges c InMemoryStore.asStore (calls.map (fun p => ⟨p.1, S, p.2⟩)) w hs =
      some (outs, w1, hs1))
    (hOk : ∀ o ∈ outs, o.2 = none) :
    ∃ turns, InMemoryStore.asStore.List S hs1 = .ok turns ∧
      turns.length = 2 * calls.length ∧
      ∀ k, k < calls.length →
        turns[2 * k]? = (calls[k]?).map (fun p => ⟨"user", p.2, [], []⟩) ∧
        ∃ a, turns[2 * k + 1]? = some a ∧ a.Role = "assistant" := by
  obtain ⟨hvalid, hlog0⟩ := asStore_valid_of_List_nil S hs hEmpty
  obtain ⟨_, as, hlen, hroles, hlog⟩ := runExchanges_success_log c InMemoryStore.asStore S _ _
    (asStore_keepsLog S) calls w w1 hs hs1 outs hvalid hRun hOk
  rw [hlog0, List.nil_append] at hlog
  have hlen2 : as.length = (calls.map Prod.snd).length := by simp [hlen]
  refine ⟨interleave (calls.map Prod.snd) as, ?_, ?_, ?_⟩
  · rw [asStore_List_eq_log, hlog]
  · rw [interleave_length _ as hlen2]; simp
  · intro k hk
    obtain ⟨h1, h2⟩ := interleave_getElem (calls.map Prod.snd) as hlen2 k
    refine ⟨?_, ?_⟩
    · rw [h1, List.getElem?_map, Option.map_map]
      rfl
    · have hk2 : k < as.length := by omega
      refine ⟨as[k], ?_, hroles _ (List.getElem_mem _)⟩
      rw [h2, List.getElem?_eq_getElem hk2]

/-- C1 at a concrete run: two successful exchanges on an empty in-memory store, the second
one with two tool calls. -/
theorem successful_exchanges_alternate_witness :
    ∃ (hs1 : Heap × InMemoryStore) (turns : List ConversationTurn),
      InMemoryStore.asStore.List "s" hs1 = .ok turns ∧
      turns.length = 2 * 2 ∧
      ∀ k, k < 2 →
        turns[2 * k]? =
          ([(1, "first"), (3, "second")][k]?).map (fun p => ⟨"user", p.2, [], []⟩) ∧
        ∃ a, turns[2 * k + 1]? = some a ∧ a.Role = "assistant" := by
  obtain ⟨w1, hs1, hRun⟩ : ∃ w1 hs1,
      runExchanges (scriptedClient demoTools) InMemoryStore.asStore
          ([(1, "first"), (3, "second")].map (fun p => ⟨p.1, "s", p.2⟩))
          (demoWorld [.ok respDone, .ok respA, .ok respB, .ok respDone])
          (⟨[]⟩, NewInMemoryStore) =
        some ([("done", none), ("done", none)], w1, hs1) := ⟨_, _, rfl⟩
  exact ⟨hs1, successful_exchanges_alternate (scriptedClient demoTools) "s"
    [(1, "first"), (3, "second")] _ w1 (⟨[]⟩, NewInMemoryStore) hs1 _ rfl hRun (by decide)⟩

/-- The same run evaluated: what the session lists afterwards. -/
theorem two_exchanges_listed :
    (runExchanges (scriptedClient demoTools) InMemoryStore.asStore
        [⟨1, "s", "first"⟩, ⟨3, "s", "second"⟩]
        (demoWorld [.ok respDone, .ok respA, .ok respB, .ok respDone])
        (⟨[]⟩, NewInMemoryStore)).map
      (fun r => (r.1, InMemoryStore.asStore.List "s" r.2.2)) =
    some ([("done", none), ("done", none)],
      .ok [⟨"user", "first", [], []⟩,
        ⟨"assistant", "done", [], [("previous_response_id", "resp_3")]⟩,
        ⟨"user", "second", [], []⟩,
        ⟨"assistant", "done",
          [⟨"read_file", "a.txt", "AAA"⟩, ⟨"list_file", ".", "a.txt"⟩],
          [("previous_response_id", "resp_3")]⟩]) := by
  rfl

/-! ### Every user turn is answered, unless the assistant append fails -/

theorem exchangesOnly_append_pair (u a : ConversationTurn) (hu : u.Role = "user")
    (ha : a.Role = "assistant") :
    ∀ (n : Nat) (l : List ConversationTurn), l.length = n → exchangesOnly l = true →
      exchangesOnly (l ++ [u, a]) = true := by
  intro n
  induction n using Nat.strong_induction_on with
  | _ n ih =>
    intro l hlen h
    match l, hlen, h with
    | [], _, _ => simp [exchangesOnly, hu, ha]
    | [_], _, h => simp [exchangesOnly] at h
    | x :: y :: rest, hlen, h =>
      simp only [exchangesOnly, Bool.and_eq_true] at h
      simp only [List.cons_append, exchangesOnly, Bool.and_eq_true]
      refine ⟨h.1, ih rest.length ?_ rest rfl h.2⟩
      simp only [List.length_cons] at hlen
      omega

theorem exchangesOnly_head_user (l : List ConversationTurn) (h : exchangesOnly l = true) :
    ∀ b, l[0]? = some b → b.Role ≠ "assistant" := by
  intro b hb
  match l, h with
  | [], _ => simp at hb
  | [_], h => simp [exchangesOnly] at h
  | x :: y :: rest, h =>
    simp only [exchangesOnly, Bool.and_eq_true, decide_eq_true_eq] at h
    simp only [List.getElem?_cons_zero, Option.some.injEq] at hb
    subst hb
    rw [h.1.1]
    decide

theorem exchangesOnly_answered :
    ∀ (n : Nat) (l : List ConversationTurn), l.length = n → exchangesOnly l = true →
      EveryUserTurnAnswered l := by
  intro n
  induction n using Nat.strong_induction_on with
  | _ n ih =>
    intro l hlen h
    match l, hlen, h with
    | [], _, _ => intro i t ht; simp at ht
    | [_], _, h => simp [exchangesOnly] at h
    | x :: y :: rest, hlen, h =>
      simp only [exchangesOnly, Bool.and_eq_true, decide_eq_true_eq] at h
      obtain ⟨⟨hx, hy⟩, hrest⟩ := h
      intro i t ht hrole
      match i, ht with
      | 0, _ =>
        refine ⟨⟨y, by simp, hy⟩, ?_⟩
        intro b hb
        exact exchangesOnly_head_user rest hrest b (by simpa using hb)
      | 1, ht =>
        simp only [List.getElem?_cons_succ, List.getElem?_cons_zero,
          Option.some.injEq] at ht
        subst ht
        rw [hy] at hrole
        exact absurd hrole (by decide)
      | i + 2, ht =>
        simp only [List.getElem?_cons_succ] at ht
        have := ih rest.length (by simp only [List.length_cons] at hlen; omega) rest rfl
          hrest i t ht hrole
        simpa only [List.getElem?_cons_succ] using this

/-- C8 as stated fails: on a store whose second `Append` fails, one call of
`GenerateResponse` on an empty session returns the error of the assistant append and
leaves the session with a user turn that no assistant turn follows. -/
theorem assistant_append_failure_leaves_user_turn :
    ∃ w1 s1,
      faultyStore.List "s" ([false, true], ⟨[]⟩, NewInMemoryStore) = .ok [] ∧
      runExchanges (scriptedClient demoTools) faultyStore [⟨1, "s", "hi"⟩]
          (demoWorld [.ok respDone]) ([false, true], ⟨[]⟩, NewInMemoryStore) =
        some ([("", some (.wrap "failed to append assistant turn: "
          (.wrap "failed to insert turn: " (.new "disk I/O error"))))], w1, s1) ∧
      faultyStore.List "s" s1 = .ok [⟨"user", "hi", [], []⟩] ∧
      ¬ EveryUserTurnAnswered [⟨"user", "hi", [], []⟩] := by
  refine ⟨_, _, rfl, rfl, rfl, ?_⟩
  intro h
  obtain ⟨⟨a, ha, _⟩, _⟩ := h 0 ⟨"user", "hi", [], []⟩ rfl rfl
  simp at ha

/-- Calls none of which returned the error of the assistant append keep the log of `S`
made of exchanges. -/
theorem runExchanges_keeps_exchangesOnly {ω σ : Type} (c : Client ω) (store : Store σ)
    (S : SessionID) (good : σ → Prop) (log : σ → List ConversationTurn)
    (K : KeepsLog store S good log) (calls : List Call) :
    ∀ (w w1 : ω) (s s1 : σ) (outs : List (String × Option GoError)),
      good s → exchangesOnly (log s) = true →
      runExchanges c store calls w s = some (outs, w1, s1) →
      (∀ o ∈ outs, ∀ e, o.2 ≠ some (.wrap "failed to append assistant turn: " e)) →
      good s1 ∧ exchangesOnly (log s1) = true ∧ EveryUserTurnAnswered (log s1) := by
  induction calls with
  | nil =>
    intro w w1 s s1 outs hgood hinv hrun _
    simp only [runExchanges, Option.some.injEq, Prod.mk.injEq] at hrun
    obtain ⟨_, _, hs⟩ := hrun
    subst hs
    exact ⟨hgood, hinv, exchangesOnly_answered _ _ rfl hinv⟩
  | cons call calls ih =>
    intro w w1 s s1 outs hgood hinv hrun hno
    simp only [runExchanges] at hrun
    cases hg : GenerateResponse c store call.fuel call.userInput call.sessionID w s with
    | none => rw [hg] at hrun; simp at hrun
    | some r =>
      obtain ⟨out, w2, s2⟩ := r
      rw [hg] at hrun
      simp only [] at hrun
      cases hrest : runExchanges c store calls w2 s2 with
      | none => rw [hrest] at hrun; simp at hrun
      | some r2 =>
        obtain ⟨outs2, w3, s3⟩ := r2
        rw [hrest] at hrun
        simp only [Option.some.injEq, Prod.mk.injEq] at hrun
        obtain ⟨houts, _, hs⟩ := hrun
        subst hs houts
        obtain ⟨g2, hother, hsame⟩ := GenerateResponse_log c store S good log K call.fuel
          call.userInput call.sessionID w w2 s s2 out hgood hg
        have hinv2 : exchangesOnly (log s2) = true := by
          by_cases hS : call.sessionID = S
          · rcases hsame hS with ⟨_, a, ha, _, hl⟩ | ⟨_, hl⟩ | ⟨⟨e, he⟩, _⟩
            · rw [hl]
              exact exchangesOnly_append_pair _ a rfl ha _ _ rfl hinv
            · rw [hl]; exact hinv
            · exact absurd he (hno out (List.mem_cons_self _ _) e)
          · rw [hother hS]; exact hinv
        exact ih w2 w3 s2 s3 outs2 g2 hinv2 hrest
          (fun o ho => hno o (List.mem_cons_of_mem _ ho))

/-- C8, amended: for every store that keeps a log of the session `S`, in every state
reached from one where `S` lists as empty by a sequence of `GenerateResponse` calls (on any
sessions, failed calls included) none of which returned the error of the assistant append,
every user turn that `List(S)` returns is immediately followed by exactly one assistant
turn. -/
theorem answered_unless_assistant_append_fails {ω σ : Type} (c : Client ω) (store : Store σ)
    (S : SessionID) (good : σ → Prop) (log : σ → List ConversationTurn)
    (K : KeepsLog store S good log) (calls : List Call) (w w1 : ω) (s s1 : σ)
    (outs : List (String × Option GoError))
    (hgood : good s)
    (hEmpty : store.List S s = .ok [])
    (hRun : runExchanges c store calls w s = some (outs, w1, s1))
    (hNo : ∀ o ∈ outs, ∀ e, o.2 ≠ some (.wrap "failed to append assistant turn: " e)) :
    ∀ turns, store.List S s1 = .ok turns → EveryUserTurnAnswered turns := by
  have hlog : log s = [] := (K.list_eq s [] hgood hEmpty).symm
  obtain ⟨g1, _, hans⟩ := runExchanges_keeps_exchangesOnly c store S good log K calls w w1 s s1
    outs hgood (by rw [hlog]; rfl) hRun hNo
  intro turns hList
  rw [K.list_eq s1 turns g1 hList]
  exact hans

/-- C8, amended, at a concrete run on a store with failing appends: the user append of the
first call fails, the backend fails in the second, the third succeeds. -/
theorem answered_unless_assistant_append_fails_witness :
    ∃ w1 s1,
      runExchanges (scriptedClient demoTools) faultyStore
          [⟨1, "s", "a"⟩, ⟨1, "s", "b"⟩, ⟨1, "s", "c"⟩]
          (demoWorld [.ok respDone, .error err503, .ok respDone])
          ([true, false, false], ⟨[]⟩, NewInMemoryStore) =
        some ([("", some (.wrap "failed to append user turn: "
            (.wrap "failed to insert turn: " (.new "disk I/O error")))),
          ("", some (.wrap "failed to call response API: " err503)),
          ("done", none)], w1, s1) ∧
      faultyStore.List "s" s1 =
        .ok [⟨"user", "c", [], []⟩,
          ⟨"assistant", "done", [], [("previous_response_id", "resp_3")]⟩] ∧
      ∀ turns, faultyStore.List "s" s1 = .ok turns → EveryUserTurnAnswered turns := by
  refine ⟨_, _, rfl, rfl, ?_⟩
  exact answered_unless_assistant_append_fails (scriptedClient demoTools) faultyStore "s" _ _
    (faultyStore_keepsLog "s") [⟨1, "s", "a"⟩, ⟨1, "s", "b"⟩, ⟨1, "s", "c"⟩]
    (demoWorld [.ok respDone, .error err503, .ok respDone]) _
    ([true, false, false], ⟨[]⟩, NewInMemoryStore) _
    [("", some (.wrap "failed to append user turn: "
        (.wrap "failed to insert turn: " (.new "disk I/O error")))),
      ("", some (.wrap "failed to call response API: " err503)),
      ("done", none)]
    (by intro p hp; cases hp) rfl rfl
    (by
      intro o ho e he
      simp only [List.mem_cons, List.mem_singleton, List.not_mem_nil, or_false] at ho
      rcases ho with rfl | rfl | rfl <;> simp at he)

/-! ### The tool registry is closed -/

/-- C13: for every name that is not one of `read_file`, `list_file`, `grep_file`,
`write_file`, `patch_file` and every argument payload, `CallFunction` returns an error (no
result text) whose message names the unknown name, and leaves the world as it is: no tool
was run; for each of the five names it is the decode/run/encode sequence of that tool's
handler, whatever the other four handlers are. -/
theorem CallFunction_registry_closed {ω : Type} (ts : Tools ω) (args : String) (w : ω) :
    (∀ name, name ∉ ["read_file", "list_file", "grep_file", "write_file", "patch_file"] →
      CallFunction ts name args w =
        (.error (.new ("unknown function call: " ++ name)), w)) ∧
    CallFunction ts "read_file" args w = callTool ts.ReadFile "read_file" args w ∧
    CallFunction ts "list_file" args w = callTool ts.ListFile "list_file" args w ∧
    CallFunction ts "grep_file" args w = callTool ts.GrepFile "grep_file" args w ∧
    CallFunction ts "write_file" args w = callTool ts.WriteFile "write_file" args w ∧
    CallFunction ts "patch_file" args w = callTool ts.PatchFile "patch_file" args w := by
  refine ⟨?_, ?_, ?_, ?_, ?_, ?_⟩
  · intro name hname
    simp only [List.mem_cons, List.mem_singleton, List.not_mem_nil, or_false, not_or] at hname
    exact CallFunction_unknown ts name args w hname.1 hname.2.1 hname.2.2.1 hname.2.2.2.1
      hname.2.2.2.2
  · rfl
  · unfold CallFunction
    rw [if_neg (by decide), if_pos (by decide)]
  · unfold CallFunction
    rw [if_neg (by decide), if_neg (by decide), if_pos (by decide)]
  · unfold CallFunction
    rw [if_neg (by decide), if_neg (by decide), if_neg (by decide), if_pos (by decide)]
  · unfold CallFunction
    rw [if_neg (by decide), if_neg (by decide), if_neg (by decide), if_neg (by decide),
      if_pos (by decide)]

/-- C13 at concrete calls: an unknown name, whatever the tools and the world, and the
name `list_file`, which reaches the listing tool and not the reading one. -/
theorem CallFunction_registry_closed_witness :
    CallFunction demoTools "delete_file" "a.txt" [("a.txt", "AAA")] =
      (.error (.new "unknown function call: delete_file"), [("a.txt", "AAA")]) ∧
    CallFunction demoTools "list_file" "a.txt" [("a.txt", "AAA")] =
      callTool demoList "list_file" "a.txt" [("a.txt", "AAA")] :=
  ⟨(CallFunction_registry_closed demoTools "a.txt" [("a.txt", "AAA")]).1 "delete_file"
      (by decide),
    (CallFunction_registry_closed demoTools "a.txt" [("a.txt", "AAA")]).2.2.1⟩

/-! ### Go strings and valid UTF-8 -/

theorem GoString.ofChars_toChars (cs : List Char) :
    (GoString.ofChars cs).toChars = cs := by
  simp only [GoString.ofChars, GoString.toChars, List.map_map]
  exact (List.map_congr_left (fun c _ => rfl)).trans (List.map_id cs)

theorem GoString.coerced_ofChars (cs : List Char) :
    (GoString.ofChars cs).coerced = GoString.ofChars cs := by
  rw [GoString.coerced, GoString.ofChars_toChars]

theorem GoString.coerced_coerced (g : GoString) : g.coerced.coerced = g.coerced :=
  GoString.coerced_ofChars _

/-- A Lean string, as a Go string, is valid UTF-8. -/
theorem GoString.ofString_valid (s : String) : (GoString.ofString s).Valid :=
  GoString.coerced_ofChars s.data

theorem ToolCall.raw_strings_valid (c : ToolCall) : c.raw.Valid :=
  ⟨GoString.ofString_valid _, GoString.ofString_valid _, GoString.ofString_valid _⟩

theorem RawToolCall.coerced_eq_of_valid (c : RawToolCall) (h : c.Valid) : c.coerced = c := by
  obtain ⟨n, a, r⟩ := c
  obtain ⟨h1, h2, h3⟩ := h
  simp only [GoString.Valid] at h1 h2 h3
  simp only [RawToolCall.coerced, h1, h2, h3]

/-- A turn whose strings are valid UTF-8 is what `encoding/json` writes and reads back. -/
theorem RawConversationTurn.coerced_of_valid (t : RawConversationTurn) (h : t.Valid) :
    t.coerced = t := by
  obtain ⟨role, content, calls, m⟩ := t
  obtain ⟨hc, hm⟩ := h
  have e1 : calls.map RawToolCall.coerced = calls :=
    (List.map_congr_left (fun c hmem => RawToolCall.coerced_eq_of_valid c (hc c hmem))).trans
      (List.map_id calls)
  have e2 : m.map (fun kv => (kv.1.coerced, kv.2.coerced)) = m :=
    (List.map_congr_left (fun kv hmem => by
      obtain ⟨h1, h2⟩ := hm kv hmem
      simp only [GoString.Valid] at h1 h2
      rw [h1, h2]
      rfl)).trans (List.map_id m)
  simp only [RawConversationTurn.coerced, e1, e2]

/-- A turn of Lean strings, as a Go turn, has valid UTF-8 only. -/
theorem ConversationTurn.raw_valid (t : ConversationTurn) : t.raw.Valid := by
  constructor
  · intro c hc
    obtain ⟨c0, _, rfl⟩ := List.mem_map.mp hc
    exact ToolCall.raw_strings_valid c0
  · intro kv hkv
    obtain ⟨kv0, _, rfl⟩ := List.mem_map.mp hkv
    exact ⟨GoString.ofString_valid _, GoString.ofString_valid _⟩

/-! ### The encoder of the examples is lawful -/

theorem decAll_encChars (s : List Char) :
    ∀ (rest cur : List Char),
      decAll (encChars s ++ rest) cur =
        (decAll rest []).map (fun ss => (cur.reverse ++ s) :: ss) := by
  induction s with
  | nil =>
    intro rest cur
    cases rest with
    | nil => simp [encChars, decAll]
    | cons y rest => simp [encChars, decAll]
  | cons x xs ih =>
    intro rest cur
    have h : encChars (x :: xs) ++ rest = 'c' :: x :: (encChars xs ++ rest) := rfl
    rw [h, decAll, if_neg (by decide), if_pos rfl, ih rest (x :: cur)]
    simp

theorem decAll_encAll (ss : List (List Char)) : decAll (encAll ss) [] = some ss := by
  induction ss with
  | nil => simp [encAll, decAll]
  | cons s ss ih =>
    rw [encAll, decAll_encChars, ih]
    simp

theorem toolCallsOfStrings_flatten (calls : Slice RawToolCall) :
    toolCallsOfStrings
      (calls.map (fun c => [c.Name.toChars, c.Arguments.toChars, c.Result.toChars])).flatten =
      some (calls.map RawToolCall.coerced) := by
  induction calls with
  | nil => rfl
  | cons c calls ih =>
    have h : (List.map (fun c : RawToolCall =>
          [c.Name.toChars, c.Arguments.toChars, c.Result.toChars]) (c :: calls)).flatten =
        c.Name.toChars :: c.Arguments.toChars :: c.Result.toChars ::
          (calls.map (fun c : RawToolCall =>
            [c.Name.toChars, c.Arguments.toChars, c.Result.toChars])).flatten := rfl
    rw [h, toolCallsOfStrings, ih]
    rfl

theorem pairsOfStrings_flatten (m : List (GoString × GoString)) :
    pairsOfStrings (m.map (fun kv => [kv.1.toChars, kv.2.toChars])).flatten =
      some (m.map (fun kv => (kv.1.coerced, kv.2.coerced))) := by
  induction m with
  | nil => rfl
  | cons kv m ih =>
    have h : (List.map (fun kv : GoString × GoString => [kv.1.toChars, kv.2.toChars])
          (kv :: m)).flatten =
        kv.1.toChars :: kv.2.toChars ::
          (m.map (fun kv : GoString × GoString => [kv.1.toChars, kv.2.toChars])).flatten :=
      rfl
    rw [h, pairsOfStrings, ih]
    rfl

theorem encChars_ne_nil (s : List Char) : encChars s ≠ [] := by
  cases s <;> simp [encChars]

theorem demoJSON_lawful : demoJSON.Lawful where
  toolCalls := by
    intro calls hne
    refine ⟨_, rfl, ?_, ?_⟩
    · cases calls with
      | nil => exact absurd rfl hne
      | cons c calls =>
        intro h
        have h2 := congrArg String.data h
        simp only [List.map_cons, List.flatten_cons, List.cons_append, encAll] at h2
        exact encChars_ne_nil _ (List.append_eq_nil.mp h2).1
    · simp only [demoJSON, decAll_encAll, Option.some_bind, toolCallsOfStrings_flatten]
  metadata := by
    intro m hne _
    refine ⟨_, rfl, ?_, ?_⟩
    · cases m with
      | nil => exact absurd rfl hne
      | cons kv m =>
        intro h
        have h2 := congrArg String.data h
        simp only [List.map_cons, List.flatten_cons, List.cons_append, encAll] at h2
        exact encChars_ne_nil _ (List.append_eq_nil.mp h2).1
    · simp only [demoJSON, decAll_encAll, Option.some_bind, pairsOfStrings_flatten]

/-! ### The durable store -/

theorem DB.sorted_filter (db : DB) (hwf : db.WF) (p : Row → Bool) :
    (db.rows.filter p).insertionSort (fun a b => a.id ≤ b.id) = db.rows.filter p := by
  apply List.Sorted.insertionSort_eq
  exact (hwf.1.filter p).imp (fun h => Nat.le_of_lt h)

theorem DB.querySelect_open (db : DB) (hwf : db.WF) (hopen : db.closed = false)
    (S : String) :
    db.querySelect S = .ok (db.rows.filter (fun r => decide (r.session_id = S))) := by
  unfold DB.querySelect
  rw [hopen, DB.sorted_filter db hwf]
  rfl

/-- The `INSERT` on an open database that does not abort it and has an id left. -/
theorem DB.execInsert_open (db : DB) (hopen : db.closed = false) (hroom : db.seq < maxRowid)
    (S : String) (role content : GoString) (tc md : Option String)
    (hins : db.insertFault ⟨db.seq + 1, S, role, content, tc, md⟩ = none) :
    db.execInsert S role content tc md =
      (none, { db with
        rows := db.rows ++ [⟨db.seq + 1, S, role, content, tc, md⟩]
        seq := db.seq + 1 }) := by
  unfold DB.execInsert
  rw [hopen, hins, if_neg (Nat.not_le.mpr hroom)]
  simp only [Bool.false_eq_true, if_false]

theorem DB.WF_insert (db : DB) (hwf : db.WF) (hroom : db.seq < maxRowid) (row : Row)
    (hid : row.id = db.seq + 1) :
    DB.WF { db with rows := db.rows ++ [row], seq := db.seq + 1 } := by
  refine ⟨?_, ?_, hroom⟩
  · show List.Pairwise _ (db.rows ++ [row])
    rw [List.pairwise_append]
    refine ⟨hwf.1, List.pairwise_singleton _ _, ?_⟩
    intro a ha b hb
    rw [List.mem_singleton] at hb
    rw [hb, hid]
    exact Nat.lt_succ_of_le (hwf.2.1 a ha)
  · intro r hr
    show r.id ≤ db.seq + 1
    rcases List.mem_append.mp hr with h | h
    · exact Nat.le_succ_of_le (hwf.2.1 r h)
    · rw [List.mem_singleton] at h
      rw [h, hid]

theorem DB.WF_delete (db : DB) (hwf : db.WF) (p : Row → Bool) :
    DB.WF { db with rows := db.rows.filter p } :=
  ⟨hwf.1.filter p, fun r hr => hwf.2.1 r (List.mem_filter.mp hr).1, hwf.2.2⟩

theorem DB.WF_empty : DB.empty.WF :=
  ⟨List.Pairwise.nil, ⟨fun r hr => absurd hr (List.not_mem_nil r), Nat.zero_le _⟩⟩

theorem scanRows_append (js : JSON) (xs ys : List Row) :
    ∀ acc : Slice RawConversationTurn,
      SQLiteStore.scanRows js (xs ++ ys) acc =
        match SQLiteStore.scanRows js xs acc with
        | .error err => .error err
        | .ok acc1 => SQLiteStore.scanRows js ys acc1 := by
  induction xs with
  | nil => intro acc; rfl
  | cons x xs ih =>
    intro acc
    simp only [List.cons_append, SQLiteStore.scanRows]
    cases SQLiteStore.scanTurn js x with
    | error err => rfl
    | ok turn => exact ih (acc ++ [turn])

/-- What `Append` stores for a turn, and what the row reads back as. -/
theorem SQLiteStore.Append_open (js : JSON) (hjs : js.Lawful) (db : DB)
    (hopen : db.closed = false) (hroom : db.seq < maxRowid) (S : SessionID)
    (t : RawConversationTurn)
    (hins : ∀ tc md, db.insertFault ⟨db.seq + 1, S, t.Role, t.Content, tc, md⟩ = none)
    (hkeys : (t.Metadata.map (fun kv => kv.1.coerced)).Nodup) :
    ∃ tc md,
      SQLiteStore.Append js db S t =
        (none, { db with
          rows := db.rows ++ [⟨db.seq + 1, S, t.Role, t.Content, tc, md⟩]
          seq := db.seq + 1 }) ∧
      (t.ToolCalls = [] → tc = none) ∧ (t.Metadata = [] → md = none) ∧
      SQLiteStore.scanTurn js ⟨db.seq + 1, S, t.Role, t.Content, tc, md⟩ = .ok t.coerced := by
  obtain ⟨role, content, calls, m⟩ := t
  have hI := fun tc md => DB.execInsert_open db hopen hroom S role content tc md (hins tc md)
  by_cases hc : calls = []
  · by_cases hm : m = []
    · subst hc hm
      refine ⟨none, none, ?_, fun _ => rfl, fun _ => rfl, rfl⟩
      simp [SQLiteStore.Append, NullString.toColumn, hI]
    · obtain ⟨text, hmar, hne, hun⟩ := hjs.metadata m hm hkeys
      subst hc
      refine ⟨none, some text, ?_, fun _ => rfl, fun h => absurd h hm, ?_⟩
      · have hlen : m.length > 0 := List.length_pos.mpr hm
        simp [SQLiteStore.Append, NullString.toColumn, hI, hlen, hmar]
      · simp [SQLiteStore.scanTurn, NullString.scan, hne, hun, RawConversationTurn.coerced]
  · obtain ⟨ctext, hcmar, hcne, hcun⟩ := hjs.toolCalls calls hc
    have hclen : calls.length > 0 := List.length_pos.mpr hc
    by_cases hm : m = []
    · subst hm
      refine ⟨some ctext, none, ?_, fun h => absurd h hc, fun _ => rfl, ?_⟩
      · simp [SQLiteStore.Append, NullString.toColumn, hI, hclen, hcmar]
      · simp [SQLiteStore.scanTurn, NullString.scan, hcne, hcun, RawConversationTurn.coerced]
    · obtain ⟨text, hmar, hne, hun⟩ := hjs.metadata m hm hkeys
      have hlen : m.length > 0 := List.length_pos.mpr hm
      refine ⟨some ctext, some text, ?_, fun h => absurd h hc, fun h => absurd h hm, ?_⟩
      · simp [SQLiteStore.Append, NullString.toColumn, hI, hclen, hcmar, hlen, hmar]
      · simp [SQLiteStore.scanTurn, NullString.scan, hcne, hcun, hne, hun,
          RawConversationTurn.coerced]

/-- When the `INSERT` fails, `Append` returns an error and the database is as it was. -/
theorem SQLiteStore.Append_insert_fails (js : JSON) (db : DB) (S : SessionID)
    (t : RawConversationTurn)
    (hfail : ∀ tc md, ∃ err, db.execInsert S t.Role t.Content tc md = (some err, db)) :
    (SQLiteStore.Append js db S t).1 ≠ none ∧ (SQLiteStore.Append js db S t).2 = db := by
  unfold SQLiteStore.Append
  split
  next e h => exact ⟨by simp, rfl⟩
  next ts h =>
    split
    next e h2 => exact ⟨by simp, rfl⟩
    next ms h2 =>
      obtain ⟨err, he⟩ := hfail ts.toColumn ms.toColumn
      rw [he]
      exact ⟨by simp, rfl⟩

/-- C12 as stated fails for a turn with a string that is not valid UTF-8. The turn whose
tool call has the result `"bin\xff\xfe"` is appended to the database of a new store
without error; `List` then returns one turn, and the result of its tool call is `bin`
followed by two runes U+FFFD: the turn read back is not equal to the turn appended. -/
theorem SQLiteStore_invalid_utf8_not_preserved :
    (SQLiteStore.Append demoJSON DB.empty "s" binaryTurn).1 = none ∧
    SQLiteStore.List demoJSON (SQLiteStore.Append demoJSON DB.empty "s" binaryTurn).2 "s" =
      .ok [{ binaryTurn with
        ToolCalls := [⟨.ofString "read_file", .ofString "a.bin", replacedResult⟩] }] ∧
    replacedResult ≠ binaryResult ∧
    ({ binaryTurn with
        ToolCalls := [⟨.ofString "read_file", .ofString "a.bin", replacedResult⟩] } :
      RawConversationTurn) ≠ binaryTurn := by
  refine ⟨rfl, rfl, by decide, by decide⟩

/-- C12, amended: for the durable store, with `encoding/json` as it is, on a database that
is open, in a state of the engine, with an id left and that does not abort the insert of
the turn, and for a turn `t` whose metadata keys are distinct (also once invalid bytes
are replaced): `Append(S, t)` returns no error and adds one row under the next id, with
the session, the role and the content of `t` as they are, `NULL` in the column of the tool
calls when `t` has none and `NULL` in the column of the metadata when `t` has none. When
`List(S)` returned turns before the call, it returns afterwards those turns followed by
one turn: `t` with every invalid byte in the strings of its tool calls and metadata
replaced by U+FFFD, the tool calls in the same order; that turn is `t` itself when these
strings are valid UTF-8. When `List(S)` returned an error before, it returns the same
error afterwards. The database is again in a state of the engine. -/
theorem SQLiteStore_Append_then_List (js : JSON) (hjs : js.Lawful) (db : DB)
    (S : SessionID) (t : RawConversationTurn)
    (hopen : db.closed = false) (hwf : db.WF) (hroom : db.seq < maxRowid)
    (hins : ∀ tc md, db.insertFault ⟨db.seq + 1, S, t.Role, t.Content, tc, md⟩ = none)
    (hkeys : (t.Metadata.map (fun kv => kv.1.coerced)).Nodup) :
    ∃ row,
      SQLiteStore.Append js db S t =
        (none, { db with rows := db.rows ++ [row], seq := db.seq + 1 }) ∧
      row.id = db.seq + 1 ∧ row.session_id = S ∧ row.role = t.Role ∧
      row.content = t.Content ∧
      (t.ToolCalls = [] → row.tool_calls = none) ∧
      (t.Metadata = [] → row.metadata = none) ∧
      (∀ prev, SQLiteStore.List js db S = .ok prev →
        SQLiteStore.List js (SQLiteStore.Append js db S t).2 S = .ok (prev ++ [t.coerced])) ∧
      (∀ err, SQLiteStore.List js db S = .error err →
        SQLiteStore.List js (SQLiteStore.Append js db S t).2 S = .error err) ∧
      (t.Valid → t.coerced = t) ∧
      (SQLiteStore.Append js db S t).2.WF := by
  obtain ⟨tc, md, hApp, htc, hmd, hscan⟩ :=
    SQLiteStore.Append_open js hjs db hopen hroom S t hins hkeys
  have hwf1 : DB.WF { db with
      rows := db.rows ++ [⟨db.seq + 1, S, t.Role, t.Content, tc, md⟩]
      seq := db.seq + 1 } := DB.WF_insert db hwf hroom _ rfl
  have hsel : ∀ r, SQLiteStore.List js (SQLiteStore.Append js db S t).2 S = r ↔
      (match SQLiteStore.List js db S with
        | .error err => Except.error err
        | .ok prev => .ok (prev ++ [t.coerced])) = r := by
    intro r
    rw [hApp]
    unfold SQLiteStore.List
    rw [DB.querySelect_open db hwf hopen, DB.querySelect_open _ hwf1 hopen]
    simp only []
    rw [List.filter_append, List.filter_cons_of_pos (by simp), List.filter_nil,
      scanRows_append]
    cases SQLiteStore.scanRows js
      (List.filter (fun r => decide (r.session_id = S)) db.rows) [] with
    | error err => exact Iff.rfl
    | ok prev =>
      simp only [SQLiteStore.scanRows, hscan]
  refine ⟨⟨db.seq + 1, S, t.Role, t.Content, tc, md⟩, hApp, rfl, rfl, rfl, rfl, htc, hmd,
    ?_, ?_, RawConversationTurn.coerced_of_valid t, ?_⟩
  · intro prev hprev
    rw [hsel, hprev]
  · intro err herr
    rw [hsel, herr]
  · rw [hApp]
    exact hwf1

/-- C12, amended, at a concrete append: a turn with two tool calls and one metadata pair,
all valid UTF-8, on the database of a new store. -/
theorem SQLiteStore_Append_then_List_witness :
    ∃ row,
      SQLiteStore.Append demoJSON DB.empty "s" demoTurn =
        (none, { DB.empty with rows := [] ++ [row], seq := 0 + 1 }) ∧
      row.id = 1 ∧ row.session_id = "s" ∧ row.role = .ofString "assistant" ∧
      row.content = .ofString "done" ∧
      SQLiteStore.List demoJSON (SQLiteStore.Append demoJSON DB.empty "s" demoTurn).2 "s" =
        .ok ([] ++ [demoTurn]) := by
  obtain ⟨row, h1, h2, h3, h4, h5, _, _, h8, _, h10, _⟩ :=
    SQLiteStore_Append_then_List demoJSON demoJSON_lawful DB.empty "s" demoTurn rfl
      DB.WF_empty (by decide) (fun _ _ => rfl) (by decide)
  have hv : demoTurn.coerced = demoTurn := h10 (ConversationTurn.raw_valid _)
  have hl := h8 [] rfl
  rw [hv] at hl
  exact ⟨row, h1, h2, h3, h4, h5, hl⟩

/-- The durable store evaluated: a turn without tool calls and metadata is stored with
both columns `NULL`, a turn with them is stored with their encodings, and both read back
as they were, in the order of the appends. -/
theorem SQLiteStore_roundtrip_evaluated :
    ((SQLiteStore.Append demoJSON
        (SQLiteStore.Append demoJSON DB.empty "s" (userTurn "go").raw).2 "s"
        (assistantTurn "ok" [⟨"f", "x", "y"⟩] "r1").raw).2.rows =
      [⟨1, "s", .ofString "user", .ofString "go", none, none⟩,
       ⟨2, "s", .ofString "assistant", .ofString "ok", some "cfecxecye",
         some "cpcrcecvcicocucsc_crcecscpcocncscec_cicdecrc1e"⟩]) ∧
    SQLiteStore.List demoJSON
        (SQLiteStore.Append demoJSON
          (SQLiteStore.Append demoJSON DB.empty "s" (userTurn "go").raw).2 "s"
          (assistantTurn "ok" [⟨"f", "x", "y"⟩] "r1").raw).2 "s" =
      .ok [(userTurn "go").raw, (assistantTurn "ok" [⟨"f", "x", "y"⟩] "r1").raw] := by
  constructor
  · decide
  · rfl

/-- The role and the content are stored as the bytes they are: a content that is not
valid UTF-8 reads back as it was. -/
theorem SQLiteStore_content_bytes_evaluated :
    SQLiteStore.List demoJSON
        (SQLiteStore.Append demoJSON DB.empty "s"
          { Role := .ofString "user", Content := binaryResult }).2 "s" =
      .ok [{ Role := .ofString "user", Content := binaryResult }] :=
  rfl

/-- Once the largest id has been given out, `Append` on the open database returns the
error of the engine, wrapped, and the database is as it was. -/
theorem SQLiteStore_Append_ids_used_up :
    SQLiteStore.Append demoJSON { DB.empty with seq := maxRowid } "s" demoTurn =
      (some (.wrap "failed to insert turn: " (.new "database or disk is full")),
        { DB.empty with seq := maxRowid }) ∧
    SQLiteStore.List demoJSON
      (SQLiteStore.Append demoJSON { DB.empty with seq := maxRowid } "s" demoTurn).2 "s" =
        .ok [] := by
  constructor <;> rfl

/-- When the engine aborts the insert (here: no room left), `Append` on the open database
returns the error of the engine, wrapped, and the database is as it was. -/
theorem SQLiteStore_Append_aborted :
    SQLiteStore.Append demoJSON
        { DB.empty with insertFault := fun _ => some errDatabaseFull } "s" demoTurn =
      (some (.wrap "failed to insert turn: " (.new "database or disk is full")),
        { DB.empty with insertFault := fun _ => some errDatabaseFull }) := by
  rfl

/-! ### Deleting a session -/

/-- C11 as stated fails for the durable store: on a store that was closed, `Delete`
returns the error of the database, wrapped, and the turns of the session stay. -/
theorem SQLiteStore_Delete_closed_fails :
    (SQLiteStore.Close
        (SQLiteStore.Append demoJSON DB.empty "s" (userTurn "go").raw).2).2 =
      { DB.empty with
        closed := true
        rows := [⟨1, "s", .ofString "user", .ofString "go", none, none⟩]
        seq := 1 } ∧
    SQLiteStore.Delete
        { DB.empty with
          closed := true
          rows := [⟨1, "s", .ofString "user", .ofString "go", none, none⟩]
          seq := 1 } "s" =
      (some (.wrap "failed to delete session: " (.new "sql: database is closed")),
        { DB.empty with
          closed := true
          rows := [⟨1, "s", .ofString "user", .ofString "go", none, none⟩]
          seq := 1 }) := by
  constructor <;> rfl

/-- C11, amended: for every state of the in-memory store, and for every state of the
durable store whose database is open, `Delete(S)` returns no error whether or not `S` has
turns; afterwards `List(S)` is empty and `List` of every other session is what it was; and
a second `Delete(S)` returns no error and leaves the state the first one left. -/
theorem Delete_removes_session (s : InMemoryStore) (js : JSON) (db : DB) (S : SessionID) :
    ((s.Delete S).1 = none ∧
      (s.Delete S).2.List S = .ok [] ∧
      (∀ S1, S1 ≠ S → (s.Delete S).2.List S1 = s.List S1) ∧
      (s.Delete S).2.Delete S = (none, (s.Delete S).2)) ∧
    (db.closed = false →
      (SQLiteStore.Delete db S).1 = none ∧
      SQLiteStore.List js (SQLiteStore.Delete db S).2 S = .ok [] ∧
      (∀ S1, S1 ≠ S →
        SQLiteStore.List js (SQLiteStore.Delete db S).2 S1 = SQLiteStore.List js db S1) ∧
      SQLiteStore.Delete (SQLiteStore.Delete db S).2 S =
        (none, (SQLiteStore.Delete db S).2)) := by
  constructor
  · refine ⟨rfl, ?_, ?_, ?_⟩
    · simp [InMemoryStore.List, InMemoryStore.Delete]
    · intro S1 hne
      simp [InMemoryStore.List, InMemoryStore.Delete, hne]
    · simp only [InMemoryStore.Delete, Prod.mk.injEq, true_and, InMemoryStore.mk.injEq]
      funext k
      by_cases hk : k = S
      · simp [hk]
      · simp [hk]
  · intro hopen
    have hdel : SQLiteStore.Delete db S =
        (none, ⟨false, db.insertFault,
          db.rows.filter (fun r => !decide (r.session_id = S)), db.seq⟩) := by
      simp [SQLiteStore.Delete, DB.execDelete, hopen]
    rw [hdel]
    refine ⟨rfl, ?_, ?_, ?_⟩
    · simp [SQLiteStore.List, DB.querySelect, List.filter_filter, SQLiteStore.scanRows]
    · intro S1 hne
      have hf : (db.rows.filter (fun r => !decide (r.session_id = S))).filter
          (fun r => decide (r.session_id = S1)) =
          db.rows.filter (fun r => decide (r.session_id = S1)) := by
        rw [List.filter_filter]
        apply List.filter_congr
        intro r _
        by_cases h1 : r.session_id = S1
        · have h2 : r.session_id ≠ S := fun h => hne (h1.symm.trans h)
          simp [h1, h2, hne]
        · simp [h1]
      simp only [SQLiteStore.List, DB.querySelect, hopen, Bool.false_eq_true, if_false, hf]
    · simp [SQLiteStore.Delete, DB.execDelete, List.filter_filter]

/-- C11, amended, at concrete stores: the session `s` has a turn, the session `u` does
not; each is deleted from an in-memory store and from an open durable store. -/
theorem Delete_removes_session_witness :
    ((NewInMemoryStore.Append "s" 0).2.Delete "s").2.List "s" = .ok [] ∧
    ((NewInMemoryStore.Append "s" 0).2.Delete "u").2.List "s" =
      (NewInMemoryStore.Append "s" 0).2.List "s" ∧
    (SQLiteStore.Delete (SQLiteStore.Append demoJSON DB.empty "s" demoTurn).2 "s").1 = none ∧
    SQLiteStore.List demoJSON
      (SQLiteStore.Delete (SQLiteStore.Append demoJSON DB.empty "s" demoTurn).2 "s").2 "s" =
        .ok [] ∧
    SQLiteStore.List demoJSON
      (SQLiteStore.Delete (SQLiteStore.Append demoJSON DB.empty "s" demoTurn).2 "u").2 "s" =
        SQLiteStore.List demoJSON (SQLiteStore.Append demoJSON DB.empty "s" demoTurn).2 "s" :=
  ⟨(Delete_removes_session (NewInMemoryStore.Append "s" 0).2 demoJSON
      (SQLiteStore.Append demoJSON DB.empty "s" demoTurn).2 "s").1.2.1,
    (Delete_removes_session (NewInMemoryStore.Append "s" 0).2 demoJSON
      (SQLiteStore.Append demoJSON DB.empty "s" demoTurn).2 "u").1.2.2.1 "s" (by decide),
    ((Delete_removes_session (NewInMemoryStore.Append "s" 0).2 demoJSON
      (SQLiteStore.Append demoJSON DB.empty "s" demoTurn).2 "s").2 rfl).1,
    ((Delete_removes_session (NewInMemoryStore.Append "s" 0).2 demoJSON
      (SQLiteStore.Append demoJSON DB.empty "s" demoTurn).2 "s").2 rfl).2.1,
    ((Delete_removes_session (NewInMemoryStore.Append "s" 0).2 demoJSON
      (SQLiteStore.Append demoJSON DB.empty "s" demoTurn).2 "u").2 rfl).2.2.1 "s"
      (by decide)⟩

/-! ### `PatchFile` and the target file -/

/-- C14 as stated fails on the path where the write fails: with room for four characters
left on the disk, `PatchFile` on `a.txt` (content `hello`, patched content `HELLO WORLD`)
returns the error of `os.WriteFile`, and the file then holds `HELL`, not what it held
before the call. -/
theorem PatchFile_failed_write_changes_file :
    PatchFile demoPatchEnv ⟨"a.txt", "hello>HELLO WORLD"⟩
        ⟨[("a.txt", "hello"), ("b.txt", "x")], 4⟩ =
      (.error (.wrap "ファイル \"a.txt\" の書き込みに失敗しました: "
          (.new "write a.txt: no space left on device")),
        ⟨[("a.txt", "HELL"), ("b.txt", "x")], 0⟩) ∧
    Disk.ReadFile "a.txt" ⟨[("a.txt", "hello"), ("b.txt", "x")], 4⟩ = .ok "hello" ∧
    Disk.ReadFile "a.txt" ⟨[("a.txt", "HELL"), ("b.txt", "x")], 0⟩ = .ok "HELL" := by
  refine ⟨rfl, rfl, rfl⟩

/-- C14, amended: on the failure paths before the write (the file cannot be read, the diff
does not parse, the diff parses to no file patch, the first file patch does not apply to
the content read) `PatchFile` returns the error and leaves the file system as it was: it
wrote nothing; when the first file patch applies, `PatchFile` makes one call of
`os.WriteFile` on the path with the patched content: if that call returns no error the
result is a success and the file system is the one that call left, and if it returns an
error `PatchFile` returns it wrapped, the file system being again the one that call left. -/
theorem PatchFile_paths {ω : Type} (env : PatchEnv ω) (args : PatchFileParamsJson) (w : ω) :
    (∀ err, env.ReadFile args.Path w = .error err →
      PatchFile env args w =
        (.error (.wrap ("ファイル " ++ env.Quote args.Path ++ " の読み込みに失敗しました: ") err),
          w)) ∧
    (∀ orig err, env.ReadFile args.Path w = .ok orig → env.Parse args.Patch = .error err →
      PatchFile env args w = (.error (.wrap "パッチのパースに失敗しました: " err), w)) ∧
    (∀ orig, env.ReadFile args.Path w = .ok orig → env.Parse args.Patch = .ok [] →
      PatchFile env args w = (.error (.new "パッチが空です"), w)) ∧
    (∀ orig file rest err, env.ReadFile args.Path w = .ok orig →
      env.Parse args.Patch = .ok (file :: rest) → env.Apply orig file = .error err →
      PatchFile env args w = (.error (.wrap "パッチの適用に失敗しました: " err), w)) ∧
    (∀ orig file rest output w1, env.ReadFile args.Path w = .ok orig →
      env.Parse args.Patch = .ok (file :: rest) → env.Apply orig file = .ok output →
      env.WriteFile args.Path output w = (none, w1) →
      PatchFile env args w =
        (.ok ⟨true, "ファイル " ++ env.Quote args.Path ++ " にパッチを適用しました"⟩, w1)) ∧
    (∀ orig file rest output err w1, env.ReadFile args.Path w = .ok orig →
      env.Parse args.Patch = .ok (file :: rest) → env.Apply orig file = .ok output →
      env.WriteFile args.Path output w = (some err, w1) →
      PatchFile env args w =
        (.error (.wrap ("ファイル " ++ env.Quote args.Path ++ " の書き込みに失敗しました: ")
          err), w1)) := by
  refine ⟨?_, ?_, ?_, ?_, ?_, ?_⟩
  · intro err h
    simp only [PatchFile, h]
  · intro orig err h hp
    simp only [PatchFile, h, hp]
  · intro orig h hp
    simp only [PatchFile, h, hp]
  · intro orig file rest err h hp ha
    simp only [PatchFile, h, hp, ha]
  · intro orig file rest output w1 h hp ha hw
    simp only [PatchFile, h, hp, ha, hw]
  · intro orig file rest output err w1 h hp ha hw
    simp only [PatchFile, h, hp, ha, hw]

/-- C14, amended, at concrete calls on a disk with room: a patch that does not apply
leaves the disk as it was, and a patch that applies replaces the content of the file and
of no other. -/
theorem PatchFile_paths_witness :
    PatchFile demoPatchEnv ⟨"a.txt", "bye>HELLO"⟩ ⟨[("a.txt", "hello"), ("b.txt", "x")], 40⟩ =
      (.error (.wrap "パッチの適用に失敗しました: " (.new "gitdiff: conflict")),
        ⟨[("a.txt", "hello"), ("b.txt", "x")], 40⟩) ∧
    PatchFile demoPatchEnv ⟨"a.txt", "hello>HELLO WORLD"⟩
        ⟨[("a.txt", "hello"), ("b.txt", "x")], 40⟩ =
      (.ok ⟨true, "ファイル \"a.txt\" にパッチを適用しました"⟩,
        ⟨[("a.txt", "HELLO WORLD"), ("b.txt", "x")], 29⟩) :=
  ⟨(PatchFile_paths demoPatchEnv ⟨"a.txt", "bye>HELLO"⟩
      ⟨[("a.txt", "hello"), ("b.txt", "x")], 40⟩).2.2.2.1 "hello" ("bye", "HELLO") []
      (.new "gitdiff: conflict") rfl rfl rfl,
    (PatchFile_paths demoPatchEnv ⟨"a.txt", "hello>HELLO WORLD"⟩
      ⟨[("a.txt", "hello"), ("b.txt", "x")], 40⟩).2.2.2.2.1 "hello" ("hello", "HELLO WORLD") []
      "HELLO WORLD" ⟨[("a.txt", "HELLO WORLD"), ("b.txt", "x")], 29⟩ rfl rfl rfl rfl⟩

/-! ### Tool resolution has no depth bound -/

theorem callTool_lift_requests {φ : Type} (t : Tool φ) (name args : String)
    (w : Scripted φ) :
    (callTool t.lift name args w).2.requests = w.requests := by
  unfold callTool
  cases hu : t.lift.Unmarshal args with
  | error err => rfl
  | ok a =>
    simp only []
    cases hr : t.lift.Run a w with
    | mk res w1 =>
      have hw : w1.requests = w.requests := by
        have : w1 = (t.lift.Run a w).2 := by rw [hr]
        rw [this]; rfl
      cases res with
      | error err => exact hw
      | ok out =>
        simp only []
        cases t.lift.Marshal out with
        | error err => exact hw
        | ok js => exact hw

theorem CallFunction_lift_requests {φ : Type} (ts : Tools φ) (name args : String)
    (w : Scripted φ) :
    (CallFunction ts.lift name args w).2.requests = w.requests := by
  unfold CallFunction
  split_ifs
  · exact callTool_lift_requests _ _ _ _
  · exact callTool_lift_requests _ _ _ _
  · exact callTool_lift_requests _ _ _ _
  · exact callTool_lift_requests _ _ _ _
  · exact callTool_lift_requests _ _ _ _
  · rfl

theorem scripted_resolveItem_requests {φ : Type} (ts : Tools φ)
    (st : LoopState (Scripted φ)) (item : ResponseOutputItemUnion) :
    (resolveItem (scriptedClient ts) st item).world.requests = st.world.requests := by
  by_cases h : item.Type_ = "function_call"
  · have hs := CallFunction_lift_requests ts item.Name item.Arguments
      ((scriptedClient ts).debugOutput ("function called: " ++ item.Name ++ "\n") st.world)
    have hd : ((scriptedClient ts).debugOutput ("function called: " ++ item.Name ++ "\n")
        st.world).requests = st.world.requests := rfl
    rw [hd] at hs
    cases hc : CallFunction (scriptedClient ts).tools item.Name item.Arguments
        ((scriptedClient ts).debugOutput ("function called: " ++ item.Name ++ "\n")
          st.world) with
    | mk r w1 =>
      have hw : w1.requests = st.world.requests := by
        have e : (CallFunction ts.lift item.Name item.Arguments
          ((scriptedClient ts).debugOutput ("function called: " ++ item.Name ++ "\n")
            st.world)).2 = w1 := congrArg Prod.snd hc
        rw [← e]; exact hs
      cases r with
      | error e => rw [resolveItem_error _ st item e w1 h hc]; exact hw
      | ok res => rw [resolveItem_ok _ st item res w1 h hc]; exact hw
  · rw [resolveItem_skip _ st item h]

theorem scripted_resolveItems_requests {φ : Type} (ts : Tools φ)
    (items : List ResponseOutputItemUnion) (st : LoopState (Scripted φ)) :
    (resolveItems (scriptedClient ts) items st).world.requests = st.world.requests := by
  induction items generalizing st with
  | nil => rfl
  | cons x xs ih =>
    rw [resolveItems_cons, ih, scripted_resolveItem_requests]

/-- The response `respA` makes the loop record exactly one call, for any client. -/
theorem respA_one_call {ω : Type} (c : Client ω) (w : ω) :
    (resolveItems c respA.Output ⟨[], [], w⟩).toolCalls.length = 1 ∧
    (resolveItems c respA.Output ⟨[], [], w⟩).toolOutputs ≠ [] := by
  obtain ⟨result, w1, h⟩ := resolveItem_call c ⟨[], [], w⟩
    ⟨"function_call", "call_1", "read_file", "a.txt", []⟩ rfl
  have hr : resolveItems c respA.Output ⟨[], [], w⟩ =
      resolveItem c ⟨[], [], w⟩ ⟨"function_call", "call_1", "read_file", "a.txt", []⟩ := rfl
  rw [hr, h]
  exact ⟨rfl, by simp⟩

/-- Against a backend that asks for a tool `n + 1` times before giving the final text,
`resolveToolCalls` makes `n + 1` follow-up requests and returns that text. -/
theorem resolveToolCalls_long_script {φ : Type} (ts : Tools φ) (n : Nat) :
    ∀ (w : Scripted φ) (rest : List (Except GoError Response)) (fuel : Nat),
      w.script = List.replicate n (Except.ok respA) ++ Except.ok respDone :: rest →
      n + 2 ≤ fuel →
      ∃ calls w1,
        resolveToolCalls (scriptedClient ts) fuel respA w =
          some (⟨"done", calls, "resp_3", none⟩, w1) ∧
        calls.length = n + 1 ∧
        w1.requests.length = w.requests.length + (n + 1) ∧
        w1.script = rest := by
  induction n with
  | zero =>
    intro w rest fuel hscript hfuel
    obtain ⟨f, rfl⟩ : ∃ f, fuel = f + 2 := ⟨fuel - 2, by omega⟩
    obtain ⟨hlen, hne⟩ := respA_one_call (scriptedClient ts) w
    have hs : (resolveItems (scriptedClient ts) respA.Output ⟨[], [], w⟩).world.script =
        Except.ok respDone :: rest := by
      rw [scripted_resolveItems_script]
      simpa using hscript
    have hnew := scripted_ResponsesNew_cons ts
      (followUpParams (scriptedClient ts) respA
        (resolveItems (scriptedClient ts) respA.Output ⟨[], [], w⟩).toolOutputs) _ _ _ hs
    have hdone : ∀ w2 : Scripted φ,
        (resolveItems (scriptedClient ts) respDone.Output ⟨[], [], w2⟩) = ⟨[], [], w2⟩ :=
      fun w2 => resolveItems_skip _ _ _ (by decide)
    refine ⟨(resolveItems (scriptedClient ts) respA.Output ⟨[], [], w⟩).toolCalls ++ [],
      { (resolveItems (scriptedClient ts) respA.Output ⟨[], [], w⟩).world with
        script := rest
        requests :=
          (resolveItems (scriptedClient ts) respA.Output ⟨[], [], w⟩).world.requests ++
            [followUpParams (scriptedClient ts) respA
              (resolveItems (scriptedClient ts) respA.Output ⟨[], [], w⟩).toolOutputs] },
      ?_, ?_, ?_, rfl⟩
    · rw [resolveToolCalls_recurse _ (f + 1) respA w respDone _ hne hnew,
        resolveToolCalls_done _ f respDone _ (by rw [hdone])]
      simp only [hdone]
      rfl
    · simp [hlen]
    · simp [scripted_resolveItems_requests]
  | succ n ih =>
    intro w rest fuel hscript hfuel
    obtain ⟨f, rfl⟩ : ∃ f, fuel = f + 1 := ⟨fuel - 1, by omega⟩
    obtain ⟨hlen, hne⟩ := respA_one_call (scriptedClient ts) w
    have hs : (resolveItems (scriptedClient ts) respA.Output ⟨[], [], w⟩).world.script =
        Except.ok respA :: (List.replicate n (Except.ok respA) ++ Except.ok respDone :: rest) := by
      rw [scripted_resolveItems_script, hscript]
      rfl
    have hnew := scripted_ResponsesNew_cons ts
      (followUpParams (scriptedClient ts) respA
        (resolveItems (scriptedClient ts) respA.Output ⟨[], [], w⟩).toolOutputs) _ _ _ hs
    obtain ⟨calls, w1, hres, hclen, hreq, hrest⟩ := ih _ rest f
      (rfl : ({ (resolveItems (scriptedClient ts) respA.Output ⟨[], [], w⟩).world with
          script := List.replicate n (Except.ok respA) ++ Except.ok respDone :: rest
          requests := (resolveItems (scriptedClient ts) respA.Output ⟨[], [], w⟩).world.requests ++
            [followUpParams (scriptedClient ts) respA
              (resolveItems (scriptedClient ts) respA.Output ⟨[], [], w⟩).toolOutputs] } :
          Scripted φ).script = _)
      (by omega)
    refine ⟨(resolveItems (scriptedClient ts) respA.Output ⟨[], [], w⟩).toolCalls ++ calls, w1,
      ?_, ?_, ?_, hrest⟩
    · rw [resolveToolCalls_recurse _ f respA w respA _ hne hnew, hres]
    · rw [List.length_append, hlen, hclen]; omega
    · rw [hreq]
      simp only [List.length_append, List.length_singleton, scripted_resolveItems_requests]
      omega

/-- Against a backend whose every response asks for a tool, `resolveToolCalls` does not
return, whatever the number of nested calls allowed. -/
theorem alwaysTool_never_returns {φ : Type} (ts : Tools φ) :
    ∀ (fuel : Nat) (w : Scripted φ),
      resolveToolCalls (alwaysToolClient ts) fuel respA w = none := by
  intro fuel
  induction fuel with
  | zero => intro w; rfl
  | succ fuel ih =>
    intro w
    obtain ⟨_, hne⟩ := respA_one_call (alwaysToolClient ts) w
    rw [resolveToolCalls_recurse _ fuel respA w respA _ hne rfl, ih]

/-- C15 as stated fails: there is a backend whose every response holds a tool invocation
against which `resolveToolCalls` neither stops nor fails: it does not return, whatever the
number of nested calls allowed. -/
theorem resolveToolCalls_never_stops :
    ∃ resp : Response,
      (∃ i ∈ resp.Output, i.Type_ = "function_call") ∧
      (∀ params w, ((alwaysToolClient demoTools).ResponsesNew params w).1 = .ok resp) ∧
      (∀ fuel w, resolveToolCalls (alwaysToolClient demoTools) fuel resp w = none) :=
  ⟨respA, ⟨_, List.mem_singleton.mpr rfl, rfl⟩, fun _ _ => rfl,
    alwaysTool_never_returns demoTools⟩

/-- C15, amended: tool resolution has no depth bound and no error of its own. For every
`n` there is a backend (here the one that asks for a tool `n + 1` times and then gives the
final text) against which `resolveToolCalls` makes `n + 1` follow-up requests and returns
the final text without error; against the backend whose every response asks for a tool it
does not return; and for every backend, an error it returns is the wrapped error of a
model request that failed. -/
theorem resolveToolCalls_unbounded {φ : Type} (ts : Tools φ) :
    (∀ (n : Nat) (w : Scripted φ) (rest : List (Except GoError Response)) (fuel : Nat),
      w.script = List.replicate n (Except.ok respA) ++ Except.ok respDone :: rest →
      n + 2 ≤ fuel →
      ∃ calls w1,
        resolveToolCalls (scriptedClient ts) fuel respA w =
          some (⟨"done", calls, "resp_3", none⟩, w1) ∧
        calls.length = n + 1 ∧
        w1.requests.length = w.requests.length + (n + 1)) ∧
    (∀ (fuel : Nat) (w : Scripted φ),
      resolveToolCalls (alwaysToolClient ts) fuel respA w = none) ∧
    (∀ (c : Client (Scripted φ)) (fuel : Nat) (resp : Response) (w w1 : Scripted φ)
        (r : Resolved) (e : GoError),
      resolveToolCalls c fuel resp w = some (r, w1) → r.err = some e →
      ∃ e0, e = .wrap "failed to call response API: " e0) := by
  refine ⟨?_, alwaysTool_never_returns ts, ?_⟩
  · intro n w rest fuel hscript hfuel
    obtain ⟨calls, w1, h1, h2, h3, _⟩ := resolveToolCalls_long_script ts n w rest fuel hscript
      hfuel
    exact ⟨calls, w1, h1, h2, h3⟩
  · intro c fuel resp w w1 r e h herr
    obtain ⟨_, _, e0, _, _, he⟩ := resolveToolCalls_err_cause c fuel resp w r w1 e h herr
    exact ⟨e0, he⟩

/-- C15, amended, at a concrete backend: three tool rounds, then the final text. -/
theorem resolveToolCalls_unbounded_witness :
    ∃ calls w1,
      resolveToolCalls (scriptedClient demoTools) 4 respA
          (demoWorld [.ok respA, .ok respA, .ok respDone]) =
        some (⟨"done", calls, "resp_3", none⟩, w1) ∧
      calls.length = 2 + 1 ∧
      w1.requests.length = (demoWorld [.ok respA, .ok respA, .ok respDone]).requests.length +
        (2 + 1) :=
  (resolveToolCalls_unbounded demoTools).1 2 (demoWorld [.ok respA, .ok respA, .ok respDone])
    [] 4 rfl (by decide)

end CodingAgent
